import Mathlib

/-!
Shallow embedding of the Gillespie SSA simulation from `GillespieJupyter.ipynb`
(function `gillespie`), together with proofs about its behaviour.

The notebook mixes numpy and plain Python arithmetic.  We model numbers as
exact rationals, but keep the behaviours the control flow of the source can
actually produce.  The waiting time is computed as `dt = -np.log(r_1) / W`
with no guard on `W`: its numerator is a `numpy.float64`, so this one
division follows IEEE semantics (`±inf`/`nan` at a zero denominator, no
exception), and comparisons against `nan` are false; the type `FV` (finite
rational, `inf`, `-inf`, `nan`) captures exactly that.  The channel-guard
ratios `w1/W`, `(w1+w2)/W`, ... are, by contrast, plain Python float
divisions (`w1 .. w7` and `W` are Python floats: rate constants times int
counts), and Python float division raises `ZeroDivisionError` at a zero
denominator.  That error path is modelled exactly by
`applyReactionsE`/`stepStE`/`loopE`/`gillespieE`; `applyReactions`/`stepSt`/
`loop`/`gillespie` are the same recursion with the zero-denominator error
idealised into IEEE no-ops, which agrees with the source on every trace
whose states all have `W ≠ 0` — in particular on every trace a
successful-run (`.ok`) hypothesis confines a claim to.

The random source is modelled as two injected streams of rationals (the values
of `np.random.uniform(0.0, 1.0)` consumed by the loop), and `np.log` is an
injected function `ℚ → FV` (its exact float value is irrelevant to the claims;
only its sign behaviour and `log 0 = -inf` matter, which appear as hypotheses
where needed).
-/

namespace Gillespie

/-- Value of a float expression: a finite rational, `+inf`, `-inf` or `nan`. -/
inductive FV where
  | fin : ℚ → FV
  | inf : FV
  | ninf : FV
  | nan : FV
deriving DecidableEq

/-- Float negation. -/
def fneg : FV → FV
  | .fin q => .fin (-q)
  | .inf => .ninf
  | .ninf => .inf
  | .nan => .nan

/-- Float addition (used for `t = t + dt`). -/
def fadd : FV → FV → FV
  | .nan, _ => .nan
  | .fin _, .nan => .nan
  | .inf, .nan => .nan
  | .ninf, .nan => .nan
  | .fin a, .fin b => .fin (a + b)
  | .fin _, .inf => .inf
  | .fin _, .ninf => .ninf
  | .inf, .fin _ => .inf
  | .inf, .inf => .inf
  | .inf, .ninf => .nan
  | .ninf, .fin _ => .ninf
  | .ninf, .inf => .nan
  | .ninf, .ninf => .ninf

/-- Float division by a finite value (IEEE semantics: `x/0` is `±inf` for
`x ≠ 0` and `nan` for `x = 0`). -/
def fdivQ : FV → ℚ → FV
  | .fin x, y =>
    if y = 0 then (if 0 < x then .inf else if x < 0 then .ninf else .nan)
    else .fin (x / y)
  | .inf, y => if y < 0 then .ninf else .inf
  | .ninf, y => if y < 0 then .inf else .ninf
  | .nan, _ => .nan

/-- `r < v` on floats, `r` finite (false whenever `v` is `nan`). -/
def qltF (r : ℚ) : FV → Prop
  | .fin x => r < x
  | .inf => True
  | .ninf => False
  | .nan => False

/-- `r ≥ v` on floats, `r` finite (false whenever `v` is `nan`). -/
def qgeF (r : ℚ) : FV → Prop
  | .fin x => x ≤ r
  | .inf => False
  | .ninf => True
  | .nan => False

/-- `r > v` on floats, `r` finite (false whenever `v` is `nan`). -/
def qgtF (r : ℚ) : FV → Prop
  | .fin x => x < r
  | .inf => False
  | .ninf => True
  | .nan => False

/-- `v < T` on floats, `T` finite (false whenever `v` is `nan`). -/
def fltQ (v : FV) (T : ℚ) : Prop :=
  match v with
  | .fin x => x < T
  | .inf => False
  | .ninf => True
  | .nan => False

instance (r : ℚ) : (v : FV) → Decidable (qltF r v)
  | .fin x => inferInstanceAs (Decidable (r < x))
  | .inf => .isTrue trivial
  | .ninf => .isFalse id
  | .nan => .isFalse id

instance (r : ℚ) : (v : FV) → Decidable (qgeF r v)
  | .fin x => inferInstanceAs (Decidable (x ≤ r))
  | .inf => .isFalse id
  | .ninf => .isTrue trivial
  | .nan => .isFalse id

instance (r : ℚ) : (v : FV) → Decidable (qgtF r v)
  | .fin x => inferInstanceAs (Decidable (x < r))
  | .inf => .isFalse id
  | .ninf => .isTrue trivial
  | .nan => .isFalse id

instance : (v : FV) → (T : ℚ) → Decidable (fltQ v T)
  | .fin x, T => inferInstanceAs (Decidable (x < T))
  | .inf, _ => .isFalse id
  | .ninf, _ => .isTrue trivial
  | .nan, _ => .isFalse id

/-- The five species counts (`n_W`, `n_I`, `n_R`, `n_S`, `n_D` in the source). -/
structure Counts where
  n_W : ℤ
  n_I : ℤ
  n_R : ℤ
  n_S : ℤ
  n_D : ℤ
deriving DecidableEq

/-- The seven rate constants, the only parameters of `gillespie`
(`a`, `alpha`, `b`, `c`, `beta`, `d`, `rho` in the source). -/
structure Rates where
  a : ℚ
  alpha : ℚ
  b : ℚ
  c : ℚ
  beta : ℚ
  d : ℚ
  rho : ℚ
deriving DecidableEq

/-- One row of the result buffer `SIR_data`: `[t, n_W, n_I, n_R, n_S, n_D]`. -/
structure Row where
  t : FV
  n_W : ℤ
  n_I : ℤ
  n_R : ℤ
  n_S : ℤ
  n_D : ℤ
deriving DecidableEq

def rowOf (t : FV) (c : Counts) : Row :=
  { t := t, n_W := c.n_W, n_I := c.n_I, n_R := c.n_R, n_S := c.n_S, n_D := c.n_D }

/-- `w1 = a * n_W` -/
def w1 (p : Rates) (c : Counts) : ℚ := p.a * (c.n_W : ℚ)

/-- `w2 = alpha * n_R` -/
def w2 (p : Rates) (c : Counts) : ℚ := p.alpha * (c.n_R : ℚ)

/-- `w3 = c * n_I * n_R` -/
def w3 (p : Rates) (c : Counts) : ℚ := p.c * (c.n_I : ℚ) * (c.n_R : ℚ)

/-- `w4 = b * n_I * n_W` -/
def w4 (p : Rates) (c : Counts) : ℚ := p.b * (c.n_I : ℚ) * (c.n_W : ℚ)

/-- `w5 = beta * n_I` -/
def w5 (p : Rates) (c : Counts) : ℚ := p.beta * (c.n_I : ℚ)

/-- `w6 = d * n_I` -/
def w6 (p : Rates) (c : Counts) : ℚ := p.d * (c.n_I : ℚ)

/-- `w7 = rho * n_I` -/
def w7 (p : Rates) (c : Counts) : ℚ := p.rho * (c.n_I : ℚ)

/-- `W = w1 + w2 + w3 + w4 + w5 + w6 + w7`, the total propensity. -/
def W (p : Rates) (c : Counts) : ℚ :=
  w1 p c + w2 p c + w3 p c + w4 p c + w5 p c + w6 p c + w7 p c

/-- The reaction-selection block of the source: seven sequential `if`
statements on `r_2` against the cumulative weights, each mutating the counts.
The weights `a1 .. a6` and the denominator `Wv` are computed once before the
block and are not recomputed as the counts mutate, exactly as in the source
(`w7` is never used in a condition).  For `Wv ≠ 0` every guard ratio
`fdivQ (.fin cum) Wv` is the exact division `cum / Wv`, which is what the
source's plain float divisions compute; the `Wv = 0` case (where the source
raises `ZeroDivisionError` at the first guard) is modelled faithfully by
`applyReactionsE` below, while this total version carries IEEE `0/0 = nan`
no-op semantics there. -/
def applyReactions (a1 a2 a3 a4 a5 a6 Wv r2 : ℚ) (s : Counts) : Counts :=
  let s1 := if qltF r2 (fdivQ (.fin a1) Wv) then
      { s with n_W := s.n_W - 1, n_R := s.n_R + 1 } else s
  let s2 := if qgeF r2 (fdivQ (.fin a1) Wv) ∧ qltF r2 (fdivQ (.fin (a1 + a2)) Wv) then
      { s1 with n_R := s1.n_R - 1, n_W := s1.n_W + 1 } else s1
  let s3 := if qgeF r2 (fdivQ (.fin (a1 + a2)) Wv) ∧
      qltF r2 (fdivQ (.fin (a1 + a2 + a3)) Wv) then
      { s2 with n_R := s2.n_R - 1, n_I := s2.n_I + 1 } else s2
  let s4 := if qgeF r2 (fdivQ (.fin (a1 + a2 + a3)) Wv) ∧
      qltF r2 (fdivQ (.fin (a1 + a2 + a3 + a4)) Wv) then
      { s3 with n_W := s3.n_W - 1, n_I := s3.n_I + 1 } else s3
  let s5 := if qgeF r2 (fdivQ (.fin (a1 + a2 + a3 + a4)) Wv) ∧
      qltF r2 (fdivQ (.fin (a1 + a2 + a3 + a4 + a5)) Wv) then
      { s4 with n_I := s4.n_I - 1, n_W := s4.n_W + 1 } else s4
  let s6 := if qgeF r2 (fdivQ (.fin (a1 + a2 + a3 + a4 + a5)) Wv) ∧
      qltF r2 (fdivQ (.fin (a1 + a2 + a3 + a4 + a5 + a6)) Wv) then
      { s5 with n_I := s5.n_I - 1, n_D := s5.n_D + 1 } else s5
  let s7 := if qgtF r2 (fdivQ (.fin (a1 + a2 + a3 + a4 + a5 + a6)) Wv) then
      { s6 with n_I := s6.n_I - 1, n_S := s6.n_S + 1 } else s6
  s7

/-- `N = 200`, the total population. -/
def Npop : ℤ := 200

/-- `T = 100.0`, the time horizon. -/
def Tmax : ℚ := 100

/-- `MAXITER = 10000`; `SIR_data` is allocated with `MAXITER` rows. -/
def MAXITER : ℕ := 10000

/-- The initial counts: `n_I = 1`, `n_D = 0`, `n_S = 0`, `n_R = 50`,
`n_W = N - n_I - n_R`. -/
def initCounts : Counts :=
  { n_W := Npop - 1 - 50, n_I := 1, n_R := 50, n_S := 0, n_D := 0 }

/-- The row written by `SIR_data[0,:] = [t, n_W, n_I, n_R, n_S, n_D]` at `t = 0`. -/
def initRow : Row := rowOf (.fin 0) initCounts

def zeroRow : Row := { t := .fin 0, n_W := 0, n_I := 0, n_R := 0, n_S := 0, n_D := 0 }

/-- Overwrite index `i` of the buffer. -/
def writeRow (buf : ℕ → Row) (i : ℕ) (r : Row) : ℕ → Row :=
  fun j => if j = i then r else buf j

/-- The mutable locals of the main loop: time `t`, counts, iteration counter
`it`, and the result buffer `SIR_data`. -/
structure LoopSt where
  t : FV
  c : Counts
  it : ℕ
  buf : ℕ → Row

/-- Why the loop stopped: `n_I == 0` (`extinction`), `t >= T`
(`horizonReached`), or `it >= MAXITER` (`iterationCapReached`). -/
inductive Reason where
  | extinction
  | horizonReached
  | iterationCapReached
deriving DecidableEq

/-- Runtime exceptions.  `indexOutOfBounds` models the numpy `IndexError`
raised by `SIR_data[it, :] = ...` when `it` is not below `MAXITER`;
`zeroDivisionError` models the Python `ZeroDivisionError` raised by the
first channel guard's plain float division `w1 / W` when `W == 0.0`;
`fuelExhausted` is an artifact of the fuel-based recursion and is unreachable
for the fuel used by `gillespie`. -/
inductive PyErr where
  | indexOutOfBounds
  | zeroDivisionError
  | fuelExhausted
deriving DecidableEq

/-- One iteration of the loop body, after the `n_I == 0` check: increment
`it`, compute the weights, draw `r_1`, step time by `-log(r_1)/W`, draw `r_2`,
apply the selected reaction, and write row `it` of the buffer. -/
def stepSt (p : Rates) (logf : ℚ → FV) (r1s r2s : ℕ → ℚ) (st : LoopSt) : LoopSt :=
  let it' := st.it + 1
  let dt := fdivQ (fneg (logf (r1s st.it))) (W p st.c)
  let t' := fadd st.t dt
  let c' := applyReactions (w1 p st.c) (w2 p st.c) (w3 p st.c) (w4 p st.c)
      (w5 p st.c) (w6 p st.c) (W p st.c) (r2s st.it) st.c
  { t := t', c := c', it := it', buf := writeRow st.buf it' (rowOf t' c') }

/-- The main loop `while t < T and it < MAXITER: ...` as a fuel-based
recursion.  The write `SIR_data[it, :]` is in bounds only for `it < MAXITER`;
otherwise it raises `IndexError`.  This version uses the total `stepSt`,
which idealises the zero-denominator `ZeroDivisionError` of the selection
block away; `loopE` below keeps that error path. -/
def loop (p : Rates) (logf : ℚ → FV) (r1s r2s : ℕ → ℚ) :
    ℕ → LoopSt → Except PyErr (LoopSt × Reason)
  | 0, _ => .error .fuelExhausted
  | fuel + 1, st =>
    if fltQ st.t Tmax then
      if st.it < MAXITER then
        if st.c.n_I = 0 then .ok (st, .extinction)
        else
          if (stepSt p logf r1s r2s st).it < MAXITER then
            loop p logf r1s r2s fuel (stepSt p logf r1s r2s st)
          else .error .indexOutOfBounds
      else .ok (st, .iterationCapReached)
    else .ok (st, .horizonReached)

/-- What `gillespie` hands to the consumer: the sliced trajectory
`SIR = SIR_data[:it, :]`, together with the final values of the loop locals. -/
structure RunResult where
  rows : List Row
  it : ℕ
  finalT : FV
  finalCounts : Counts
  reason : Reason
deriving DecidableEq

/-- The initial loop state: `t = 0`, the initial counts, `it = 0`, and the
zero-filled buffer with row 0 set to the initial sample. -/
def initSt : LoopSt :=
  { t := .fin 0, c := initCounts, it := 0, buf := writeRow (fun _ => zeroRow) 0 initRow }

/-- The core of the `gillespie` function: run the loop from the initial state
and return the sliced trajectory `SIR_data[:it, :]` (plotting is presentation
glue and not modelled). -/
def mkResult : LoopSt × Reason → RunResult
  | (st, rsn) =>
    { rows := (List.range st.it).map st.buf, it := st.it, finalT := st.t,
      finalCounts := st.c, reason := rsn }

def gillespie (p : Rates) (logf : ℚ → FV) (r1s r2s : ℕ → ℚ) : Except PyErr RunResult :=
  (loop p logf r1s r2s (MAXITER + 1) initSt).map mkResult

/-- The reaction-selection block with the source's exception behaviour.  In
the source, `w1 .. w7` and `W` are plain Python floats (rate constants times
int counts), so every guard ratio is a plain Python float division, which
raises `ZeroDivisionError` on a zero denominator.  All seven guards divide by
the same precomputed `W`, so the block raises at the very first guard
`r_2 < w1 / W` — before any count is mutated — exactly when `W = 0`; for
`W ≠ 0` every division is the ordinary exact division, i.e. the block
behaves as `applyReactions`. -/
def applyReactionsE (a1 a2 a3 a4 a5 a6 Wv r2 : ℚ) (s : Counts) : Except PyErr Counts :=
  if Wv = 0 then .error .zeroDivisionError
  else .ok (applyReactions a1 a2 a3 a4 a5 a6 Wv r2 s)

/-- One iteration of the loop body with the exception path: `it += 1`, then
the waiting-time step `t += -np.log(r_1) / W` (whose numerator is a
`numpy.float64`, so this division follows IEEE semantics and never raises),
then the selection block, which raises `ZeroDivisionError` when `W = 0` —
before the row write.  On success the row write at index `it + 1` is
included, as in `stepSt`. -/
def stepStE (p : Rates) (logf : ℚ → FV) (r1s r2s : ℕ → ℚ) (st : LoopSt) :
    Except PyErr LoopSt :=
  match applyReactionsE (w1 p st.c) (w2 p st.c) (w3 p st.c) (w4 p st.c)
      (w5 p st.c) (w6 p st.c) (W p st.c) (r2s st.it) st.c with
  | .error e => .error e
  | .ok c' =>
    let it' := st.it + 1
    let t' := fadd st.t (fdivQ (fneg (logf (r1s st.it))) (W p st.c))
    .ok { t := t', c := c', it := it', buf := writeRow st.buf it' (rowOf t' c') }

/-- The main loop with both exception paths of the body: the
`ZeroDivisionError` of the selection block (raised before the row write) and
the `IndexError` of an out-of-bounds row write.  `loop` above is the same
recursion with the zero-denominator error path idealised away. -/
def loopE (p : Rates) (logf : ℚ → FV) (r1s r2s : ℕ → ℚ) :
    ℕ → LoopSt → Except PyErr (LoopSt × Reason)
  | 0, _ => .error .fuelExhausted
  | fuel + 1, st =>
    if fltQ st.t Tmax then
      if st.it < MAXITER then
        if st.c.n_I = 0 then .ok (st, .extinction)
        else
          match stepStE p logf r1s r2s st with
          | .error e => .error e
          | .ok st' =>
            if st'.it < MAXITER then loopE p logf r1s r2s fuel st'
            else .error .indexOutOfBounds
      else .ok (st, .iterationCapReached)
    else .ok (st, .horizonReached)

/-- `gillespie` with the exception behaviour of the source kept intact. -/
def gillespieE (p : Rates) (logf : ℚ → FV) (r1s r2s : ℕ → ℚ) : Except PyErr RunResult :=
  (loopE p logf r1s r2s (MAXITER + 1) initSt).map mkResult

/-- The default rate constants of the source. -/
def defaultRates : Rates :=
  { a := 1/10, alpha := 3/100, b := 1/1000, c := 1/100, beta := 1/5, d := 2/25, rho := 1/10 }

instance {ε α : Type} [DecidableEq ε] [DecidableEq α] : DecidableEq (Except ε α) := fun x y =>
  match x, y with
  | .error e, .error f =>
    if h : e = f then .isTrue (by rw [h]) else .isFalse (fun hh => by cases hh; exact h rfl)
  | .ok a, .ok b =>
    if h : a = b then .isTrue (by rw [h]) else .isFalse (fun hh => by cases hh; exact h rfl)
  | .error _, .ok _ => .isFalse (fun hh => by cases hh)
  | .ok _, .error _ => .isFalse (fun hh => by cases hh)

/-- The stoichiometric delta of each channel (channels numbered 1..7 as in
the source; any other index leaves the counts unchanged). -/
def applyCh : ℕ → Counts → Counts
  | 1, s => { s with n_W := s.n_W - 1, n_R := s.n_R + 1 }
  | 2, s => { s with n_R := s.n_R - 1, n_W := s.n_W + 1 }
  | 3, s => { s with n_R := s.n_R - 1, n_I := s.n_I + 1 }
  | 4, s => { s with n_W := s.n_W - 1, n_I := s.n_I + 1 }
  | 5, s => { s with n_I := s.n_I - 1, n_W := s.n_W + 1 }
  | 6, s => { s with n_I := s.n_I - 1, n_D := s.n_D + 1 }
  | 7, s => { s with n_I := s.n_I - 1, n_S := s.n_S + 1 }
  | _, s => s

/-- The channel the selection block actually fires (for a positive finite
denominator): the smallest `j ≤ 6` with `r2 < cum_j / Wv`; failing that,
channel 7 if `r2 > cum_6 / Wv`; and no channel at all if `r2 = cum_6 / Wv`. -/
def selectFirst (a1 a2 a3 a4 a5 a6 Wv r2 : ℚ) : Option ℕ :=
  if r2 < a1 / Wv then some 1
  else if r2 < (a1 + a2) / Wv then some 2
  else if r2 < (a1 + a2 + a3) / Wv then some 3
  else if r2 < (a1 + a2 + a3 + a4) / Wv then some 4
  else if r2 < (a1 + a2 + a3 + a4 + a5) / Wv then some 5
  else if r2 < (a1 + a2 + a3 + a4 + a5 + a6) / Wv then some 6
  else if (a1 + a2 + a3 + a4 + a5 + a6) / Wv < r2 then some 7
  else none

/-- The `r2` bounds that hold when channel `j` is selected. -/
def chBounds (a1 a2 a3 a4 a5 a6 Wv r2 : ℚ) : ℕ → Prop
  | 1 => r2 < a1 / Wv
  | 2 => a1 / Wv ≤ r2 ∧ r2 < (a1 + a2) / Wv
  | 3 => (a1 + a2) / Wv ≤ r2 ∧ r2 < (a1 + a2 + a3) / Wv
  | 4 => (a1 + a2 + a3) / Wv ≤ r2 ∧ r2 < (a1 + a2 + a3 + a4) / Wv
  | 5 => (a1 + a2 + a3 + a4) / Wv ≤ r2 ∧ r2 < (a1 + a2 + a3 + a4 + a5) / Wv
  | 6 => (a1 + a2 + a3 + a4 + a5) / Wv ≤ r2 ∧ r2 < (a1 + a2 + a3 + a4 + a5 + a6) / Wv
  | 7 => (a1 + a2 + a3 + a4 + a5 + a6) / Wv < r2
  | _ => False

/-- The condition under which branch `j` of the selection block executes,
exactly as written in the source (`j` is the 1-based channel number). -/
def guardCh (a1 a2 a3 a4 a5 a6 Wv r2 : ℚ) : ℕ → Prop
  | 1 => qltF r2 (fdivQ (.fin a1) Wv)
  | 2 => qgeF r2 (fdivQ (.fin a1) Wv) ∧ qltF r2 (fdivQ (.fin (a1 + a2)) Wv)
  | 3 => qgeF r2 (fdivQ (.fin (a1 + a2)) Wv) ∧ qltF r2 (fdivQ (.fin (a1 + a2 + a3)) Wv)
  | 4 => qgeF r2 (fdivQ (.fin (a1 + a2 + a3)) Wv) ∧
      qltF r2 (fdivQ (.fin (a1 + a2 + a3 + a4)) Wv)
  | 5 => qgeF r2 (fdivQ (.fin (a1 + a2 + a3 + a4)) Wv) ∧
      qltF r2 (fdivQ (.fin (a1 + a2 + a3 + a4 + a5)) Wv)
  | 6 => qgeF r2 (fdivQ (.fin (a1 + a2 + a3 + a4 + a5)) Wv) ∧
      qltF r2 (fdivQ (.fin (a1 + a2 + a3 + a4 + a5 + a6)) Wv)
  | 7 => qgtF r2 (fdivQ (.fin (a1 + a2 + a3 + a4 + a5 + a6)) Wv)
  | _ => False

/-- `W + I + R + S + D`, the total population of a counts vector. -/
def countsSum (c : Counts) : ℤ := c.n_W + c.n_I + c.n_R + c.n_S + c.n_D

/-- `W + I + R + S + D` of a buffer row. -/
def rowSum (r : Row) : ℤ := r.n_W + r.n_I + r.n_R + r.n_S + r.n_D

/-- All seven rate constants are non-negative (a valid configuration). -/
def RatesNN (p : Rates) : Prop :=
  0 ≤ p.a ∧ 0 ≤ p.alpha ∧ 0 ≤ p.b ∧ 0 ≤ p.c ∧ 0 ≤ p.beta ∧ 0 ≤ p.d ∧ 0 ≤ p.rho

/-- All five species counts are non-negative. -/
def CountsNN (c : Counts) : Prop :=
  0 ≤ c.n_W ∧ 0 ≤ c.n_I ∧ 0 ≤ c.n_R ∧ 0 ≤ c.n_S ∧ 0 ≤ c.n_D

/-- All five species counts of a buffer row are non-negative. -/
def RowNN (r : Row) : Prop :=
  0 ≤ r.n_W ∧ 0 ≤ r.n_I ∧ 0 ≤ r.n_R ∧ 0 ≤ r.n_S ∧ 0 ≤ r.n_D

/-- Test double for `np.log`, faithful where the claims need it:
`log 0 = -inf`, and `log r = r - 1` (negative for `r < 1`) otherwise. -/
def clog : ℚ → FV := fun r => if r = 0 then .ninf else .fin (r - 1)

/-- The all-zero configuration: every rate constant `0` (all non-negative). -/
def zeroRates : Rates := { a := 0, alpha := 0, b := 0, c := 0, beta := 0, d := 0, rho := 0 }

/-- A constant stream of draws. -/
def constStream (q : ℚ) : ℕ → ℚ := fun _ => q

/-- Result of the run with the default rates, `r1 = 1/2` and
`r2 = 17300/17429`: channel 6 fires at the first iteration (`I → D`), `I`
becomes 0, and the loop breaks at the next check. -/
def resA : RunResult :=
  { rows := [initRow], it := 1, finalT := .fin (500/17429),
    finalCounts := { n_W := 149, n_I := 0, n_R := 50, n_S := 0, n_D := 1 },
    reason := .extinction }

/-- The counts after the first iteration of that run. -/
def countsA : Counts := { n_W := 149, n_I := 0, n_R := 50, n_S := 0, n_D := 1 }

/-- The waiting-time increment of each iteration of the cap-reaching run:
`-log(9999/10000) / W = (1/10000) / (17429/1000)` under the `clog` model. -/
def dt0 : ℚ := 1/174290

/-- `r1` draws close to 1, so every `dt` equals the tiny `dt0`. -/
def r1C : ℕ → ℚ := constStream (9999/10000)

/-- `r2` draws exactly on the uncovered boundary `(w1+...+w6)/W` of the
initial state: no reaction branch fires, so the counts (and hence the
weights and the boundary itself) never change. -/
def r2C : ℕ → ℚ := constStream (17329/17429)

/-- A float value is finite when it is `fin q` for some rational `q`. -/
def finiteFV : FV → Prop
  | .fin _ => True
  | .inf => False
  | .ninf => False
  | .nan => False

/-- The selection rule exactly as the claim states it: the smallest index
`j` (scanning 1..7) with `cum_j / W ≥ r2`, boundaries closed on the upper
side.  Modelled from the spec for comparison with the code's selection
block. -/
def selectSpecClosedUpper (a1 a2 a3 a4 a5 a6 Wv r2 : ℚ) : ℕ :=
  if r2 ≤ a1 / Wv then 1
  else if r2 ≤ (a1 + a2) / Wv then 2
  else if r2 ≤ (a1 + a2 + a3) / Wv then 3
  else if r2 ≤ (a1 + a2 + a3 + a4) / Wv then 4
  else if r2 ≤ (a1 + a2 + a3 + a4 + a5) / Wv then 5
  else if r2 ≤ (a1 + a2 + a3 + a4 + a5 + a6) / Wv then 6
  else 7

/-- Two adjacent samples: `S` and `D` each grow by exactly 0 or 1. -/
def adjSD (r r' : Row) : Prop :=
  (r'.n_S = r.n_S ∨ r'.n_S = r.n_S + 1) ∧ (r'.n_D = r.n_D ∨ r'.n_D = r.n_D + 1)

lemma except_map_error {ε α β : Type} (f : α → β) (e : ε) :
    Except.map f (.error e : Except ε α) = .error e := rfl

lemma except_map_ok {ε α β : Type} (f : α → β) (x : α) :
    Except.map f (.ok x : Except ε α) = .ok (f x) := rfl

/-! ## Basic lemmas about the float model -/

lemma fdivQ_fin {y : ℚ} (h : y ≠ 0) (x : ℚ) : fdivQ (.fin x) y = .fin (x / y) := by
  simp [fdivQ, h]

lemma qltF_fin (r x : ℚ) : qltF r (.fin x) = (r < x) := rfl

lemma qgeF_fin (r x : ℚ) : qgeF r (.fin x) = (x ≤ r) := rfl

lemma qgtF_fin (r x : ℚ) : qgtF r (.fin x) = (x < r) := rfl

/-! ## Characterisation of the reaction-selection block -/

lemma selectFirst_sound {a1 a2 a3 a4 a5 a6 Wv r2 : ℚ} {j : ℕ}
    (h : selectFirst a1 a2 a3 a4 a5 a6 Wv r2 = some j) :
    chBounds a1 a2 a3 a4 a5 a6 Wv r2 j := by
  unfold selectFirst at h
  split_ifs at h with k1 k2 k3 k4 k5 k6 k7 <;>
    (injection h with h; subst h; simp only [chBounds]) <;>
    first
      | assumption
      | exact ⟨not_lt.mp (by assumption), by assumption⟩

/-- With all-zero weights and a zero denominator every cumulative ratio is
`0/0 = nan`, every comparison against it is false, and the block is a no-op
(this is what the source does when `W == 0`). -/
lemma applyReactions_zeros (r2 : ℚ) (s : Counts) :
    applyReactions 0 0 0 0 0 0 0 r2 s = s := by
  simp [applyReactions, fdivQ, qltF, qgeF, qgtF]

/-- For a positive denominator and non-negative weights `a2 .. a6`, the
sequential `if` block is equivalent to firing exactly the channel computed by
`selectFirst` (and to a no-op when `selectFirst` returns `none`). -/
lemma applyReactions_char (a1 a2 a3 a4 a5 a6 Wv r2 : ℚ) (s : Counts)
    (h2 : 0 ≤ a2) (h3 : 0 ≤ a3) (h4 : 0 ≤ a4) (h5 : 0 ≤ a5) (h6 : 0 ≤ a6) (hW : 0 < Wv) :
    applyReactions a1 a2 a3 a4 a5 a6 Wv r2 s =
      match selectFirst a1 a2 a3 a4 a5 a6 Wv r2 with
      | some j => applyCh j s
      | none => s := by
  have hW0 : Wv ≠ 0 := ne_of_gt hW
  have key : ∀ x y : ℚ, x ≤ y → x / Wv ≤ y / Wv :=
    fun x y h => (div_le_div_iff_of_pos_right hW).mpr h
  have m12 : a1 / Wv ≤ (a1 + a2) / Wv := key _ _ (by linarith)
  have m23 : (a1 + a2) / Wv ≤ (a1 + a2 + a3) / Wv := key _ _ (by linarith)
  have m34 : (a1 + a2 + a3) / Wv ≤ (a1 + a2 + a3 + a4) / Wv := key _ _ (by linarith)
  have m45 : (a1 + a2 + a3 + a4) / Wv ≤ (a1 + a2 + a3 + a4 + a5) / Wv := key _ _ (by linarith)
  have m56 : (a1 + a2 + a3 + a4 + a5) / Wv ≤ (a1 + a2 + a3 + a4 + a5 + a6) / Wv :=
    key _ _ (by linarith)
  simp only [applyReactions, selectFirst, fdivQ_fin hW0, qltF_fin, qgeF_fin, qgtF_fin]
  by_cases k1 : r2 < a1 / Wv
  · have n1 : ¬(a1 / Wv ≤ r2) := not_le.mpr k1
    have n2 : ¬((a1 + a2) / Wv ≤ r2) := fun h => n1 (le_trans m12 h)
    have n3 : ¬((a1 + a2 + a3) / Wv ≤ r2) := fun h => n2 (le_trans m23 h)
    have n4 : ¬((a1 + a2 + a3 + a4) / Wv ≤ r2) := fun h => n3 (le_trans m34 h)
    have n5 : ¬((a1 + a2 + a3 + a4 + a5) / Wv ≤ r2) := fun h => n4 (le_trans m45 h)
    have n7 : ¬((a1 + a2 + a3 + a4 + a5 + a6) / Wv < r2) :=
      not_lt.mpr (le_of_lt (lt_of_lt_of_le k1
        (le_trans m12 (le_trans m23 (le_trans m34 (le_trans m45 m56))))))
    simp [k1, n1, n2, n3, n4, n5, n7, applyCh]
  · have l1 : a1 / Wv ≤ r2 := not_lt.mp k1
    by_cases k2 : r2 < (a1 + a2) / Wv
    · have n2 : ¬((a1 + a2) / Wv ≤ r2) := not_le.mpr k2
      have n3 : ¬((a1 + a2 + a3) / Wv ≤ r2) := fun h => n2 (le_trans m23 h)
      have n4 : ¬((a1 + a2 + a3 + a4) / Wv ≤ r2) := fun h => n3 (le_trans m34 h)
      have n5 : ¬((a1 + a2 + a3 + a4 + a5) / Wv ≤ r2) := fun h => n4 (le_trans m45 h)
      have n7 : ¬((a1 + a2 + a3 + a4 + a5 + a6) / Wv < r2) :=
        not_lt.mpr (le_of_lt (lt_of_lt_of_le k2 (le_trans m23 (le_trans m34 (le_trans m45 m56)))))
      simp [k1, l1, k2, n2, n3, n4, n5, n7, applyCh]
    · have l2 : (a1 + a2) / Wv ≤ r2 := not_lt.mp k2
      by_cases k3 : r2 < (a1 + a2 + a3) / Wv
      · have n3 : ¬((a1 + a2 + a3) / Wv ≤ r2) := not_le.mpr k3
        have n4 : ¬((a1 + a2 + a3 + a4) / Wv ≤ r2) := fun h => n3 (le_trans m34 h)
        have n5 : ¬((a1 + a2 + a3 + a4 + a5) / Wv ≤ r2) := fun h => n4 (le_trans m45 h)
        have n7 : ¬((a1 + a2 + a3 + a4 + a5 + a6) / Wv < r2) :=
          not_lt.mpr (le_of_lt (lt_of_lt_of_le k3 (le_trans m34 (le_trans m45 m56))))
        simp [k1, k2, l2, k3, n3, n4, n5, n7, applyCh]
      · have l3 : (a1 + a2 + a3) / Wv ≤ r2 := not_lt.mp k3
        by_cases k4 : r2 < (a1 + a2 + a3 + a4) / Wv
        · have n4 : ¬((a1 + a2 + a3 + a4) / Wv ≤ r2) := not_le.mpr k4
          have n5 : ¬((a1 + a2 + a3 + a4 + a5) / Wv ≤ r2) := fun h => n4 (le_trans m45 h)
          have n7 : ¬((a1 + a2 + a3 + a4 + a5 + a6) / Wv < r2) :=
            not_lt.mpr (le_of_lt (lt_of_lt_of_le k4 (le_trans m45 m56)))
          simp [k1, k2, k3, l3, k4, n4, n5, n7, applyCh]
        · have l4 : (a1 + a2 + a3 + a4) / Wv ≤ r2 := not_lt.mp k4
          by_cases k5 : r2 < (a1 + a2 + a3 + a4 + a5) / Wv
          · have n5 : ¬((a1 + a2 + a3 + a4 + a5) / Wv ≤ r2) := not_le.mpr k5
            have n7 : ¬((a1 + a2 + a3 + a4 + a5 + a6) / Wv < r2) :=
              not_lt.mpr (le_of_lt (lt_of_lt_of_le k5 m56))
            simp [k1, k2, k3, k4, l4, k5, n5, n7, applyCh]
          · have l5 : (a1 + a2 + a3 + a4 + a5) / Wv ≤ r2 := not_lt.mp k5
            by_cases k6 : r2 < (a1 + a2 + a3 + a4 + a5 + a6) / Wv
            · have n7 : ¬((a1 + a2 + a3 + a4 + a5 + a6) / Wv < r2) := not_lt.mpr (le_of_lt k6)
              simp [k1, k2, k3, k4, k5, l5, k6, n7, applyCh]
            · by_cases k7 : (a1 + a2 + a3 + a4 + a5 + a6) / Wv < r2
              · simp [k1, k2, k3, k4, k5, k6, k7, applyCh]
              · simp [k1, k2, k3, k4, k5, k6, k7]

/-- If branch `j` executes, `selectFirst` computes exactly `j`. -/
lemma guardCh_imp_selectFirst {a1 a2 a3 a4 a5 a6 Wv r2 : ℚ}
    (h2 : 0 ≤ a2) (h3 : 0 ≤ a3) (h4 : 0 ≤ a4) (h5 : 0 ≤ a5) (h6 : 0 ≤ a6) (hW : 0 < Wv)
    {j : ℕ} (hg : guardCh a1 a2 a3 a4 a5 a6 Wv r2 j) :
    selectFirst a1 a2 a3 a4 a5 a6 Wv r2 = some j := by
  have hW0 : Wv ≠ 0 := ne_of_gt hW
  have key : ∀ x y : ℚ, x ≤ y → x / Wv ≤ y / Wv :=
    fun x y h => (div_le_div_iff_of_pos_right hW).mpr h
  have m12 : a1 / Wv ≤ (a1 + a2) / Wv := key _ _ (by linarith)
  have m23 : (a1 + a2) / Wv ≤ (a1 + a2 + a3) / Wv := key _ _ (by linarith)
  have m34 : (a1 + a2 + a3) / Wv ≤ (a1 + a2 + a3 + a4) / Wv := key _ _ (by linarith)
  have m45 : (a1 + a2 + a3 + a4) / Wv ≤ (a1 + a2 + a3 + a4 + a5) / Wv := key _ _ (by linarith)
  have m56 : (a1 + a2 + a3 + a4 + a5) / Wv ≤ (a1 + a2 + a3 + a4 + a5 + a6) / Wv :=
    key _ _ (by linarith)
  match j, hg with
  | 1, hg =>
    simp only [guardCh, fdivQ_fin hW0, qltF_fin] at hg
    simp only [selectFirst, if_pos hg]
  | 2, hg =>
    simp only [guardCh, fdivQ_fin hW0, qgeF_fin, qltF_fin] at hg
    simp only [selectFirst, if_neg (not_lt.mpr hg.1), if_pos hg.2]
  | 3, hg =>
    simp only [guardCh, fdivQ_fin hW0, qgeF_fin, qltF_fin] at hg
    have u1 : ¬(r2 < a1 / Wv) := not_lt.mpr (le_trans m12 hg.1)
    simp only [selectFirst, if_neg u1, if_neg (not_lt.mpr hg.1), if_pos hg.2]
  | 4, hg =>
    simp only [guardCh, fdivQ_fin hW0, qgeF_fin, qltF_fin] at hg
    have u2 : ¬(r2 < (a1 + a2) / Wv) := not_lt.mpr (le_trans m23 hg.1)
    have u1 : ¬(r2 < a1 / Wv) := not_lt.mpr (le_trans m12 (le_trans m23 hg.1))
    simp only [selectFirst, if_neg u1, if_neg u2, if_neg (not_lt.mpr hg.1), if_pos hg.2]
  | 5, hg =>
    simp only [guardCh, fdivQ_fin hW0, qgeF_fin, qltF_fin] at hg
    have u3 : ¬(r2 < (a1 + a2 + a3) / Wv) := not_lt.mpr (le_trans m34 hg.1)
    have u2 : ¬(r2 < (a1 + a2) / Wv) := not_lt.mpr (le_trans m23 (le_trans m34 hg.1))
    have u1 : ¬(r2 < a1 / Wv) := not_lt.mpr (le_trans m12 (le_trans m23 (le_trans m34 hg.1)))
    simp only [selectFirst, if_neg u1, if_neg u2, if_neg u3, if_neg (not_lt.mpr hg.1),
      if_pos hg.2]
  | 6, hg =>
    simp only [guardCh, fdivQ_fin hW0, qgeF_fin, qltF_fin] at hg
    have u4 : ¬(r2 < (a1 + a2 + a3 + a4) / Wv) := not_lt.mpr (le_trans m45 hg.1)
    have u3 : ¬(r2 < (a1 + a2 + a3) / Wv) := not_lt.mpr (le_trans m34 (le_trans m45 hg.1))
    have u2 : ¬(r2 < (a1 + a2) / Wv) :=
      not_lt.mpr (le_trans m23 (le_trans m34 (le_trans m45 hg.1)))
    have u1 : ¬(r2 < a1 / Wv) :=
      not_lt.mpr (le_trans m12 (le_trans m23 (le_trans m34 (le_trans m45 hg.1))))
    simp only [selectFirst, if_neg u1, if_neg u2, if_neg u3, if_neg u4,
      if_neg (not_lt.mpr hg.1), if_pos hg.2]
  | 7, hg =>
    simp only [guardCh, fdivQ_fin hW0, qgtF_fin] at hg
    have u6 : ¬(r2 < (a1 + a2 + a3 + a4 + a5 + a6) / Wv) := not_lt.mpr (le_of_lt hg)
    have u5 : ¬(r2 < (a1 + a2 + a3 + a4 + a5) / Wv) :=
      not_lt.mpr (le_of_lt (lt_of_le_of_lt m56 hg))
    have u4 : ¬(r2 < (a1 + a2 + a3 + a4) / Wv) :=
      not_lt.mpr (le_of_lt (lt_of_le_of_lt (le_trans m45 m56) hg))
    have u3 : ¬(r2 < (a1 + a2 + a3) / Wv) :=
      not_lt.mpr (le_of_lt (lt_of_le_of_lt (le_trans m34 (le_trans m45 m56)) hg))
    have u2 : ¬(r2 < (a1 + a2) / Wv) :=
      not_lt.mpr (le_of_lt (lt_of_le_of_lt (le_trans m23 (le_trans m34 (le_trans m45 m56))) hg))
    have u1 : ¬(r2 < a1 / Wv) :=
      not_lt.mpr (le_of_lt (lt_of_le_of_lt
        (le_trans m12 (le_trans m23 (le_trans m34 (le_trans m45 m56)))) hg))
    simp only [selectFirst, if_neg u1, if_neg u2, if_neg u3, if_neg u4, if_neg u5, if_neg u6,
      if_pos hg]

/-- At the draw exactly equal to `(w1 + ... + w6) / W` no branch is selected. -/
lemma selectFirst_gap {a1 a2 a3 a4 a5 a6 Wv : ℚ}
    (h2 : 0 ≤ a2) (h3 : 0 ≤ a3) (h4 : 0 ≤ a4) (h5 : 0 ≤ a5) (h6 : 0 ≤ a6) (hW : 0 < Wv) :
    selectFirst a1 a2 a3 a4 a5 a6 Wv ((a1 + a2 + a3 + a4 + a5 + a6) / Wv) = none := by
  have key : ∀ x y : ℚ, x ≤ y → x / Wv ≤ y / Wv :=
    fun x y h => (div_le_div_iff_of_pos_right hW).mpr h
  have m12 : a1 / Wv ≤ (a1 + a2) / Wv := key _ _ (by linarith)
  have m23 : (a1 + a2) / Wv ≤ (a1 + a2 + a3) / Wv := key _ _ (by linarith)
  have m34 : (a1 + a2 + a3) / Wv ≤ (a1 + a2 + a3 + a4) / Wv := key _ _ (by linarith)
  have m45 : (a1 + a2 + a3 + a4) / Wv ≤ (a1 + a2 + a3 + a4 + a5) / Wv := key _ _ (by linarith)
  have m56 : (a1 + a2 + a3 + a4 + a5) / Wv ≤ (a1 + a2 + a3 + a4 + a5 + a6) / Wv :=
    key _ _ (by linarith)
  have u6 : ¬((a1 + a2 + a3 + a4 + a5 + a6) / Wv < (a1 + a2 + a3 + a4 + a5 + a6) / Wv) :=
    lt_irrefl _
  have u5 : ¬((a1 + a2 + a3 + a4 + a5 + a6) / Wv < (a1 + a2 + a3 + a4 + a5) / Wv) :=
    not_lt.mpr m56
  have u4 : ¬((a1 + a2 + a3 + a4 + a5 + a6) / Wv < (a1 + a2 + a3 + a4) / Wv) :=
    not_lt.mpr (le_trans m45 m56)
  have u3 : ¬((a1 + a2 + a3 + a4 + a5 + a6) / Wv < (a1 + a2 + a3) / Wv) :=
    not_lt.mpr (le_trans m34 (le_trans m45 m56))
  have u2 : ¬((a1 + a2 + a3 + a4 + a5 + a6) / Wv < (a1 + a2) / Wv) :=
    not_lt.mpr (le_trans m23 (le_trans m34 (le_trans m45 m56)))
  have u1 : ¬((a1 + a2 + a3 + a4 + a5 + a6) / Wv < a1 / Wv) :=
    not_lt.mpr (le_trans m12 (le_trans m23 (le_trans m34 (le_trans m45 m56))))
  simp only [selectFirst, if_neg u1, if_neg u2, if_neg u3, if_neg u4, if_neg u5, if_neg u6,
    if_neg u6]

/-! ## Step and loop lemmas -/

lemma stepSt_it (p : Rates) (logf : ℚ → FV) (r1s r2s : ℕ → ℚ) (st : LoopSt) :
    (stepSt p logf r1s r2s st).it = st.it + 1 := rfl

lemma stepSt_t (p : Rates) (logf : ℚ → FV) (r1s r2s : ℕ → ℚ) (st : LoopSt) :
    (stepSt p logf r1s r2s st).t =
      fadd st.t (fdivQ (fneg (logf (r1s st.it))) (W p st.c)) := rfl

lemma stepSt_c (p : Rates) (logf : ℚ → FV) (r1s r2s : ℕ → ℚ) (st : LoopSt) :
    (stepSt p logf r1s r2s st).c =
      applyReactions (w1 p st.c) (w2 p st.c) (w3 p st.c) (w4 p st.c) (w5 p st.c) (w6 p st.c)
        (W p st.c) (r2s st.it) st.c := rfl

lemma stepSt_buf (p : Rates) (logf : ℚ → FV) (r1s r2s : ℕ → ℚ) (st : LoopSt) :
    (stepSt p logf r1s r2s st).buf =
      writeRow st.buf (st.it + 1)
        (rowOf (stepSt p logf r1s r2s st).t (stepSt p logf r1s r2s st).c) := rfl

lemma stepSt_buf_ne (p : Rates) (logf : ℚ → FV) (r1s r2s : ℕ → ℚ) (st : LoopSt)
    {j : ℕ} (hj : j ≠ st.it + 1) :
    (stepSt p logf r1s r2s st).buf j = st.buf j := by
  rw [stepSt_buf]; simp [writeRow, hj]

/-- Any property of the loop state preserved by `stepSt` holds at every
normal (`ok`) exit of the loop. -/
lemma loop_inv (p : Rates) (logf : ℚ → FV) (r1s r2s : ℕ → ℚ) (P : LoopSt → Prop)
    (hstep : ∀ st, P st → fltQ st.t Tmax → st.it < MAXITER → st.c.n_I ≠ 0 →
      P (stepSt p logf r1s r2s st)) :
    ∀ fuel st st' rsn, P st → loop p logf r1s r2s fuel st = .ok (st', rsn) → P st' := by
  intro fuel
  induction fuel with
  | zero => intro st st' rsn _ h; simp [loop] at h
  | succ f ih =>
    intro st st' rsn hP h
    rw [loop] at h
    by_cases h1 : fltQ st.t Tmax
    · rw [if_pos h1] at h
      by_cases hit : st.it < MAXITER
      · rw [if_pos hit] at h
        by_cases hI : st.c.n_I = 0
        · rw [if_pos hI] at h
          cases h
          exact hP
        · rw [if_neg hI] at h
          by_cases h4 : (stepSt p logf r1s r2s st).it < MAXITER
          · rw [if_pos h4] at h
            exact ih _ _ _ (hstep st hP h1 hit hI) h
          · rw [if_neg h4] at h
            cases h
      · rw [if_neg hit] at h
        cases h
        exact hP
    · rw [if_neg h1] at h
      cases h
      exact hP

/-- If there is fuel left and `t < T` fails, the loop exits with
`horizonReached` (the while-condition is checked left to right). -/
lemma loop_exit_horizon (p : Rates) (logf : ℚ → FV) (r1s r2s : ℕ → ℚ)
    {fuel : ℕ} (hf : fuel ≠ 0) {st : LoopSt} (hT : ¬ fltQ st.t Tmax) :
    loop p logf r1s r2s fuel st = .ok (st, .horizonReached) := by
  cases fuel with
  | zero => exact absurd rfl hf
  | succ f => rw [loop, if_neg hT]

/-- One full loop iteration whose row write stays in bounds. -/
lemma loop_step (p : Rates) (logf : ℚ → FV) (r1s r2s : ℕ → ℚ) (f : ℕ) (st : LoopSt)
    (hT : fltQ st.t Tmax) (hit : st.it < MAXITER) (hI : ¬ st.c.n_I = 0)
    (hit2 : (stepSt p logf r1s r2s st).it < MAXITER) :
    loop p logf r1s r2s (f + 1) st = loop p logf r1s r2s f (stepSt p logf r1s r2s st) := by
  rw [loop, if_pos hT, if_pos hit, if_neg hI, if_pos hit2]

/-- A loop iteration whose row write is out of bounds raises `IndexError`. -/
lemma loop_step_overflow (p : Rates) (logf : ℚ → FV) (r1s r2s : ℕ → ℚ) (f : ℕ) (st : LoopSt)
    (hT : fltQ st.t Tmax) (hit : st.it < MAXITER) (hI : ¬ st.c.n_I = 0)
    (hit2 : ¬ (stepSt p logf r1s r2s st).it < MAXITER) :
    loop p logf r1s r2s (f + 1) st = .error .indexOutOfBounds := by
  rw [loop, if_pos hT, if_pos hit, if_neg hI, if_neg hit2]

lemma rows_get (f : ℕ → Row) (n i : ℕ) (h : i < ((List.range n).map f).length) :
    ((List.range n).map f).get ⟨i, h⟩ = f i := by
  simp

lemma rows_length (f : ℕ → Row) (n : ℕ) : ((List.range n).map f).length = n := by
  simp

/-! ## Per-iteration facts about the selection block -/

lemma rowSum_rowOf (t : FV) (c : Counts) : rowSum (rowOf t c) = countsSum c := rfl

set_option maxHeartbeats 1000000 in
/-- One pass through the selection block preserves the population sum,
whatever the weights, the denominator and the draw are. -/
lemma applyReactions_sum (a1 a2 a3 a4 a5 a6 Wv r2 : ℚ) (s : Counts) :
    countsSum (applyReactions a1 a2 a3 a4 a5 a6 Wv r2 s) = countsSum s := by
  simp only [applyReactions]
  split_ifs <;> simp [countsSum] <;> ring

set_option maxHeartbeats 1000000 in
/-- One pass through the selection block moves `n_S` up by zero or one
(only branch 7 touches it), whatever the inputs are. -/
lemma applyReactions_S (a1 a2 a3 a4 a5 a6 Wv r2 : ℚ) (s : Counts) :
    (applyReactions a1 a2 a3 a4 a5 a6 Wv r2 s).n_S = s.n_S ∨
      (applyReactions a1 a2 a3 a4 a5 a6 Wv r2 s).n_S = s.n_S + 1 := by
  simp only [applyReactions]
  split_ifs <;> simp

set_option maxHeartbeats 1000000 in
/-- One pass through the selection block moves `n_D` up by zero or one
(only branch 6 touches it), whatever the inputs are. -/
lemma applyReactions_D (a1 a2 a3 a4 a5 a6 Wv r2 : ℚ) (s : Counts) :
    (applyReactions a1 a2 a3 a4 a5 a6 Wv r2 s).n_D = s.n_D ∨
      (applyReactions a1 a2 a3 a4 a5 a6 Wv r2 s).n_D = s.n_D + 1 := by
  simp only [applyReactions]
  split_ifs <;> simp

/-! ## Non-negativity -/

lemma rowNN_rowOf {t : FV} {c : Counts} (h : CountsNN c) : RowNN (rowOf t c) := h

lemma pos_of_mul_pos_right {a x : ℚ} (hx : 0 ≤ x) (h : 0 < a * x) : 0 < x := by
  rcases hx.eq_or_lt with h0 | h0
  · rw [← h0, mul_zero] at h
    exact absurd h (lt_irrefl 0)
  · exact h0

/-- One pass through the selection block keeps the counts non-negative: a
branch whose source species is zero has a zero weight, so its `r2` interval
is empty and it cannot fire (uses `0 ≤ r2 < 1`). -/
lemma applyReactions_nonneg (p : Rates) (c : Counts) (r2 : ℚ)
    (hp : RatesNN p) (hc : CountsNN c) (h0 : 0 ≤ r2) (h1 : r2 < 1) :
    CountsNN (applyReactions (w1 p c) (w2 p c) (w3 p c) (w4 p c) (w5 p c) (w6 p c)
      (W p c) r2 c) := by
  obtain ⟨ha, hal, hb, hcc, hbe, hd, hr⟩ := hp
  obtain ⟨hWc, hIc, hRc, hSc, hDc⟩ := hc
  have cW : (0:ℚ) ≤ (c.n_W : ℚ) := by exact_mod_cast hWc
  have cI : (0:ℚ) ≤ (c.n_I : ℚ) := by exact_mod_cast hIc
  have cR : (0:ℚ) ≤ (c.n_R : ℚ) := by exact_mod_cast hRc
  have hw1 : 0 ≤ w1 p c := mul_nonneg ha cW
  have hw2 : 0 ≤ w2 p c := mul_nonneg hal cR
  have hw3 : 0 ≤ w3 p c := mul_nonneg (mul_nonneg hcc cI) cR
  have hw4 : 0 ≤ w4 p c := mul_nonneg (mul_nonneg hb cI) cW
  have hw5 : 0 ≤ w5 p c := mul_nonneg hbe cI
  have hw6 : 0 ≤ w6 p c := mul_nonneg hd cI
  have hw7 : 0 ≤ w7 p c := mul_nonneg hr cI
  have hWnn : 0 ≤ W p c := by unfold W; linarith
  rcases hWnn.eq_or_lt with hz | hpos
  · have e1 : w1 p c = 0 := by unfold W at hz; linarith
    have e2 : w2 p c = 0 := by unfold W at hz; linarith
    have e3 : w3 p c = 0 := by unfold W at hz; linarith
    have e4 : w4 p c = 0 := by unfold W at hz; linarith
    have e5 : w5 p c = 0 := by unfold W at hz; linarith
    have e6 : w6 p c = 0 := by unfold W at hz; linarith
    rw [e1, e2, e3, e4, e5, e6, ← hz, applyReactions_zeros]
    exact ⟨hWc, hIc, hRc, hSc, hDc⟩
  · rw [applyReactions_char _ _ _ _ _ _ _ _ _ hw2 hw3 hw4 hw5 hw6 hpos]
    cases hs : selectFirst (w1 p c) (w2 p c) (w3 p c) (w4 p c) (w5 p c) (w6 p c) (W p c) r2 with
    | none => exact ⟨hWc, hIc, hRc, hSc, hDc⟩
    | some j =>
      have hbd := selectFirst_sound hs
      match j, hbd with
      | 1, hbd =>
        simp only [chBounds] at hbd
        have hdivpos : 0 < w1 p c / W p c := lt_of_le_of_lt h0 hbd
        have hw1pos : 0 < w1 p c := by
          rcases div_pos_iff.mp hdivpos with ⟨h', _⟩ | ⟨_, h'⟩
          · exact h'
          · exact absurd hpos (not_lt.mpr (le_of_lt h'))
        have hWpos : 1 ≤ c.n_W := by
          have := pos_of_mul_pos_right cW hw1pos
          exact_mod_cast Int.cast_pos.mp this
        refine ⟨?_, ?_, ?_, ?_, ?_⟩ <;> simp only [applyCh] <;> omega
      | 2, hbd =>
        simp only [chBounds] at hbd
        have hlt := (div_lt_div_iff_of_pos_right hpos).mp (lt_of_le_of_lt hbd.1 hbd.2)
        have hw2pos : 0 < w2 p c := by linarith
        have hRpos : 1 ≤ c.n_R := by
          have := pos_of_mul_pos_right cR hw2pos
          exact_mod_cast Int.cast_pos.mp this
        refine ⟨?_, ?_, ?_, ?_, ?_⟩ <;> simp only [applyCh] <;> omega
      | 3, hbd =>
        simp only [chBounds] at hbd
        have hlt := (div_lt_div_iff_of_pos_right hpos).mp (lt_of_le_of_lt hbd.1 hbd.2)
        have hw3pos : 0 < w3 p c := by linarith
        have hRpos : 1 ≤ c.n_R := by
          have := pos_of_mul_pos_right cR hw3pos
          exact_mod_cast Int.cast_pos.mp this
        refine ⟨?_, ?_, ?_, ?_, ?_⟩ <;> simp only [applyCh] <;> omega
      | 4, hbd =>
        simp only [chBounds] at hbd
        have hlt := (div_lt_div_iff_of_pos_right hpos).mp (lt_of_le_of_lt hbd.1 hbd.2)
        have hw4pos : 0 < w4 p c := by linarith
        have hWpos : 1 ≤ c.n_W := by
          have := pos_of_mul_pos_right cW hw4pos
          exact_mod_cast Int.cast_pos.mp this
        refine ⟨?_, ?_, ?_, ?_, ?_⟩ <;> simp only [applyCh] <;> omega
      | 5, hbd =>
        simp only [chBounds] at hbd
        have hlt := (div_lt_div_iff_of_pos_right hpos).mp (lt_of_le_of_lt hbd.1 hbd.2)
        have hw5pos : 0 < w5 p c := by linarith
        have hIpos : 1 ≤ c.n_I := by
          have := pos_of_mul_pos_right cI hw5pos
          exact_mod_cast Int.cast_pos.mp this
        refine ⟨?_, ?_, ?_, ?_, ?_⟩ <;> simp only [applyCh] <;> omega
      | 6, hbd =>
        simp only [chBounds] at hbd
        have hlt := (div_lt_div_iff_of_pos_right hpos).mp (lt_of_le_of_lt hbd.1 hbd.2)
        have hw6pos : 0 < w6 p c := by linarith
        have hIpos : 1 ≤ c.n_I := by
          have := pos_of_mul_pos_right cI hw6pos
          exact_mod_cast Int.cast_pos.mp this
        refine ⟨?_, ?_, ?_, ?_, ?_⟩ <;> simp only [applyCh] <;> omega
      | 7, hbd =>
        simp only [chBounds] at hbd
        have hcum : w1 p c + w2 p c + w3 p c + w4 p c + w5 p c + w6 p c < W p c := by
          have hlt1 : (w1 p c + w2 p c + w3 p c + w4 p c + w5 p c + w6 p c) / W p c < 1 :=
            lt_trans hbd h1
          exact (div_lt_one hpos).mp hlt1
        have hw7pos : 0 < w7 p c := by unfold W at hcum; linarith
        have hIpos : 1 ≤ c.n_I := by
          have := pos_of_mul_pos_right cI hw7pos
          exact_mod_cast Int.cast_pos.mp this
        refine ⟨?_, ?_, ?_, ?_, ?_⟩ <;> simp only [applyCh] <;> omega

/-! ## Concrete runs -/

/-- If there is fuel left, `t < T`, `it < MAXITER` but `n_I = 0`, the loop
breaks with `extinction`. -/
lemma loop_exit_extinction (p : Rates) (logf : ℚ → FV) (r1s r2s : ℕ → ℚ)
    {fuel : ℕ} (hf : fuel ≠ 0) {st : LoopSt} (hT : fltQ st.t Tmax)
    (hit : st.it < MAXITER) (hI : st.c.n_I = 0) :
    loop p logf r1s r2s fuel st = .ok (st, .extinction) := by
  cases fuel with
  | zero => exact absurd rfl hf
  | succ f => rw [loop, if_pos hT, if_pos hit, if_pos hI]

lemma stepSt_runA :
    stepSt defaultRates clog (constStream (1/2)) (constStream (17300/17429)) initSt =
      { t := .fin (500/17429), c := countsA, it := 1,
        buf := writeRow initSt.buf 1 (rowOf (.fin (500/17429)) countsA) } := by
  have hdt : fdivQ (fneg (clog (1/2))) (W defaultRates initCounts) = .fin (500/17429) := by
    norm_num [clog, fneg, fdivQ, W, w1, w2, w3, w4, w5, w6, w7, defaultRates, initCounts, Npop]
  have hc : applyReactions (w1 defaultRates initCounts) (w2 defaultRates initCounts)
      (w3 defaultRates initCounts) (w4 defaultRates initCounts) (w5 defaultRates initCounts)
      (w6 defaultRates initCounts) (W defaultRates initCounts) (17300/17429) initCounts
      = countsA := by
    norm_num [applyReactions, fdivQ, qltF, qgeF, qgtF, W, w1, w2, w3, w4, w5, w6, w7,
      defaultRates, initCounts, Npop, countsA]
  have ht : fadd (FV.fin 0) (FV.fin (500/17429)) = FV.fin (500/17429) := by
    show FV.fin (0 + 500/17429) = FV.fin (500/17429)
    norm_num
  simp only [stepSt, initSt, constStream, hdt, hc, ht]

lemma runA_eq :
    gillespie defaultRates clog (constStream (1/2)) (constStream (17300/17429)) = .ok resA := by
  have h1 : loop defaultRates clog (constStream (1/2)) (constStream (17300/17429))
      (MAXITER + 1) initSt =
      .ok ({ t := .fin (500/17429), c := countsA, it := 1,
             buf := writeRow initSt.buf 1 (rowOf (.fin (500/17429)) countsA) }, .extinction) := by
    rw [loop_step defaultRates clog (constStream (1/2)) (constStream (17300/17429)) MAXITER
      initSt (by show (0:ℚ) < 100; norm_num) (by decide) (by decide)
      (by rw [stepSt_it]; decide)]
    rw [stepSt_runA]
    exact loop_exit_extinction _ _ _ _ (by decide)
      (by show (500/17429:ℚ) < 100; norm_num) (by decide) (by decide)
  unfold gillespie
  rw [h1, except_map_ok]
  rfl

lemma stepSt_gap (k : ℕ) (buf : ℕ → Row) :
    stepSt defaultRates clog r1C r2C
        { t := .fin ((k : ℚ) * dt0), c := initCounts, it := k, buf := buf } =
      { t := .fin (((k : ℚ) + 1) * dt0), c := initCounts, it := k + 1,
        buf := writeRow buf (k + 1) (rowOf (.fin (((k : ℚ) + 1) * dt0)) initCounts) } := by
  have hdt : fdivQ (fneg (clog (9999/10000))) (W defaultRates initCounts) = .fin dt0 := by
    norm_num [clog, fneg, fdivQ, W, w1, w2, w3, w4, w5, w6, w7, defaultRates, initCounts,
      Npop, dt0]
  have hc : applyReactions (w1 defaultRates initCounts) (w2 defaultRates initCounts)
      (w3 defaultRates initCounts) (w4 defaultRates initCounts) (w5 defaultRates initCounts)
      (w6 defaultRates initCounts) (W defaultRates initCounts) (17329/17429) initCounts
      = initCounts := by
    norm_num [applyReactions, fdivQ, qltF, qgeF, qgtF, W, w1, w2, w3, w4, w5, w6, w7,
      defaultRates, initCounts, Npop]
  have ht : fadd (FV.fin ((k : ℚ) * dt0)) (FV.fin dt0) = FV.fin (((k : ℚ) + 1) * dt0) := by
    show FV.fin ((k : ℚ) * dt0 + dt0) = FV.fin (((k : ℚ) + 1) * dt0)
    congr 1
    ring
  simp only [stepSt, r1C, r2C, constStream, hdt, hc, ht]

/-- With those draws the state never changes, `t` stays far below the
horizon, and after `m + 1` more iterations the write at row `MAXITER`
overflows the buffer. -/
lemma c1_loop_overflow : ∀ (m k fuel : ℕ) (buf : ℕ → Row),
    k + m + 1 = MAXITER → m + 1 ≤ fuel →
    loop defaultRates clog r1C r2C fuel
      { t := .fin ((k : ℚ) * dt0), c := initCounts, it := k, buf := buf } =
    .error .indexOutOfBounds := by
  have hM : MAXITER = 10000 := rfl
  have hT : ∀ k : ℕ, k ≤ 10000 → fltQ (FV.fin ((k : ℚ) * dt0)) Tmax := by
    intro k hk
    show (k : ℚ) * dt0 < 100
    have h1 : (k : ℚ) ≤ 10000 := by exact_mod_cast hk
    have h2 : (k : ℚ) * dt0 ≤ 10000 * dt0 :=
      mul_le_mul_of_nonneg_right h1 (by norm_num [dt0])
    have h3 : (10000 : ℚ) * dt0 < 100 := by norm_num [dt0]
    linarith
  have hI : ¬ initCounts.n_I = 0 := by decide
  intro m
  induction m with
  | zero =>
    intro k fuel buf hk hf
    obtain ⟨f, rfl⟩ : ∃ f, fuel = f + 1 := ⟨fuel - 1, by omega⟩
    set stk : LoopSt := { t := .fin ((k : ℚ) * dt0), c := initCounts, it := k, buf := buf }
      with hstk
    have hit : stk.it < MAXITER := by show k < MAXITER; omega
    have hIk : ¬ stk.c.n_I = 0 := hI
    have hTk : fltQ stk.t Tmax := hT k (by omega)
    have hit2 : ¬ (stepSt defaultRates clog r1C r2C stk).it < MAXITER := by
      rw [stepSt_it]
      show ¬ k + 1 < MAXITER
      omega
    exact loop_step_overflow defaultRates clog r1C r2C f stk hTk hit hIk hit2
  | succ n ih =>
    intro k fuel buf hk hf
    obtain ⟨f, rfl⟩ : ∃ f, fuel = f + 1 := ⟨fuel - 1, by omega⟩
    set stk : LoopSt := { t := .fin ((k : ℚ) * dt0), c := initCounts, it := k, buf := buf }
      with hstk
    have hit : stk.it < MAXITER := by show k < MAXITER; omega
    have hIk : ¬ stk.c.n_I = 0 := hI
    have hTk : fltQ stk.t Tmax := hT k (by omega)
    have hit2 : (stepSt defaultRates clog r1C r2C stk).it < MAXITER := by
      rw [stepSt_it]
      show k + 1 < MAXITER
      omega
    rw [loop_step defaultRates clog r1C r2C f stk hTk hit hIk hit2, hstk, stepSt_gap]
    have hrec := ih (k + 1) f
      (writeRow buf (k + 1) (rowOf (.fin (((k : ℚ) + 1) * dt0)) initCounts))
      (by omega) (by omega)
    rw [show ((k + 1 : ℕ) : ℚ) = (k : ℚ) + 1 by push_cast; ring] at hrec
    exact hrec

/-- Claim C1: with the default (non-negative) rates there is a random stream
on which the loop runs to the iteration cap, and the iteration that reaches
it increments `it` to `MAXITER` and then writes `SIR_data[MAXITER, :]`, one
row past the buffer: the run raises `IndexError` instead of terminating with
`IterationCapReached`.  This refutes "the loop never throws on valid
configurations" and "every write into the result buffer is within bounds,
including on the iteration that reaches the iteration cap". -/
theorem c1_cap_write_out_of_bounds :
    gillespie defaultRates clog r1C r2C = .error .indexOutOfBounds := by
  have h := c1_loop_overflow (MAXITER - 1) 0 (MAXITER + 1) initSt.buf
    (by norm_num [MAXITER]) (by norm_num [MAXITER])
  have est : LoopSt.mk (FV.fin (((0:ℕ):ℚ) * dt0)) initCounts 0 initSt.buf = initSt := by
    rw [show (((0:ℕ):ℚ) * dt0) = 0 by norm_num]
    rfl
  rw [est] at h
  unfold gillespie
  rw [h, except_map_error]

/-! ## The zero-propensity run (claims C6 and C7) -/

lemma W_zeroRates (c : Counts) : W zeroRates c = 0 := by
  have hw1 : w1 zeroRates c = 0 := zero_mul _
  have hw2 : w2 zeroRates c = 0 := zero_mul _
  have hw3 : w3 zeroRates c = 0 := mul_eq_zero_of_left (zero_mul _) _
  have hw4 : w4 zeroRates c = 0 := mul_eq_zero_of_left (zero_mul _) _
  have hw5 : w5 zeroRates c = 0 := zero_mul _
  have hw6 : w6 zeroRates c = 0 := zero_mul _
  have hw7 : w7 zeroRates c = 0 := zero_mul _
  unfold W
  rw [hw1, hw2, hw3, hw4, hw5, hw6, hw7]
  norm_num

/-- A body iteration on a state with zero total propensity raises
`ZeroDivisionError` at the first channel guard. -/
lemma stepStE_err (p : Rates) (logf : ℚ → FV) (r1s r2s : ℕ → ℚ) (st : LoopSt)
    (hW : W p st.c = 0) :
    stepStE p logf r1s r2s st = .error .zeroDivisionError := by
  unfold stepStE applyReactionsE
  rw [if_pos hW]

/-- The loop on a live state (`t < T`, `it < MAXITER`, `I ≠ 0`) with zero
total propensity crashes with `ZeroDivisionError` inside that iteration. -/
lemma loopE_err (p : Rates) (logf : ℚ → FV) (r1s r2s : ℕ → ℚ) (f : ℕ) (st : LoopSt)
    (hT : fltQ st.t Tmax) (hit : st.it < MAXITER) (hI : ¬ st.c.n_I = 0)
    (hW : W p st.c = 0) :
    loopE p logf r1s r2s (f + 1) st = .error .zeroDivisionError := by
  rw [loopE, if_pos hT, if_pos hit, if_neg hI, stepStE_err p logf r1s r2s st hW]

lemma stepSt_zeroDraw (logf : ℚ → FV) (r1s r2s : ℕ → ℚ)
    (h0 : r1s 0 = 0) (hlog : logf 0 = .ninf) :
    stepSt defaultRates logf r1s r2s initSt =
      { t := .inf,
        c := applyReactions (w1 defaultRates initCounts) (w2 defaultRates initCounts)
          (w3 defaultRates initCounts) (w4 defaultRates initCounts)
          (w5 defaultRates initCounts) (w6 defaultRates initCounts)
          (W defaultRates initCounts) (r2s 0) initCounts,
        it := 1,
        buf := writeRow initSt.buf 1 (rowOf .inf
          (applyReactions (w1 defaultRates initCounts) (w2 defaultRates initCounts)
            (w3 defaultRates initCounts) (w4 defaultRates initCounts)
            (w5 defaultRates initCounts) (w6 defaultRates initCounts)
            (W defaultRates initCounts) (r2s 0) initCounts)) } := by
  have hW : W defaultRates initCounts = 17429/1000 := by
    norm_num [W, w1, w2, w3, w4, w5, w6, w7, defaultRates, initCounts, Npop]
  have hdt : fdivQ (fneg FV.ninf) (17429/1000 : ℚ) = FV.inf := by
    show fdivQ FV.inf (17429/1000 : ℚ) = FV.inf
    simp only [fdivQ, if_neg (by norm_num : ¬ (17429/1000 : ℚ) < 0)]
  have ht : fadd (FV.fin 0) FV.inf = FV.inf := rfl
  simp only [stepSt, initSt, h0, hlog, hW, hdt, ht]

/-- With the default rates, a first draw `r1 = 0` is consumed as is (no
resampling): `-log(0) = +inf`, the waiting time is `+inf`, `t` becomes
`+inf`, one reaction still fires and its sample is recorded, and the loop
exits through the `t < T` check at the next iteration without crashing. -/
lemma run_zeroDraw (logf : ℚ → FV) (r1s r2s : ℕ → ℚ)
    (h0 : r1s 0 = 0) (hlog : logf 0 = .ninf) :
    Except.map (fun r => (r.rows, r.it, r.finalT, r.reason))
        (gillespie defaultRates logf r1s r2s) =
      .ok ([initRow], 1, FV.inf, .horizonReached) := by
  have h1 : loop defaultRates logf r1s r2s (MAXITER + 1) initSt =
      .ok (stepSt defaultRates logf r1s r2s initSt, .horizonReached) := by
    rw [loop_step defaultRates logf r1s r2s MAXITER initSt (by show (0:ℚ) < 100; norm_num)
      (by decide) (by decide) (by rw [stepSt_it]; decide)]
    refine loop_exit_horizon _ _ _ _ (by decide) ?_
    rw [stepSt_zeroDraw logf r1s r2s h0 hlog]
    exact fun h => h
  unfold gillespie
  rw [h1, except_map_ok, stepSt_zeroDraw logf r1s r2s h0 hlog]
  rfl

/-! ## Claims C6 and C7 -/

/-- Claim C6 (counterexample): with every rate constant zero (a valid,
non-negative configuration with `I = 1 > 0`, so `W_tot = 0`), the run does
not transition to Terminated(Extinction): the waiting-time division goes
through (numpy, `+inf`), but the first channel guard divides the plain
Python float `w1` by the plain Python float `W = 0.0` and raises
`ZeroDivisionError` — the run crashes on its first iteration. -/
theorem c6_counterexample :
    gillespieE zeroRates clog (constStream (1/2)) (constStream (1/2)) =
      .error .zeroDivisionError ∧ initCounts.n_I = 1 := by
  refine ⟨?_, rfl⟩
  unfold gillespieE
  rw [loopE_err zeroRates clog (constStream (1/2)) (constStream (1/2)) MAXITER initSt
    (by show (0:ℚ) < 100; norm_num) (by decide) (by decide) (W_zeroRates _)]
  rfl

/-- Claim C6 (amended): the code has no `W_tot ≤ 0` guard at all.  The
waiting time `-np.log(r_1) / W` has a `numpy.float64` numerator, so that
single division follows IEEE semantics and yields `+inf` at `W_tot = 0`
without raising; but the channel-guard ratios are plain Python float
divisions, so the first guard `r_2 < w1 / W` raises `ZeroDivisionError`.
With every rate constant zero (hence `W_tot = 0` while `I = 1 > 0`), the
run therefore crashes inside its first iteration — for every log model and
every pair of draw streams — instead of terminating as a forced Extinction
(or via any designed reason). -/
theorem c6_unguarded_division_amended (logf : ℚ → FV) (r1s r2s : ℕ → ℚ) (q : ℚ)
    (hq : 0 < q) :
    fdivQ (.fin q) 0 = .inf ∧
    gillespieE zeroRates logf r1s r2s = .error .zeroDivisionError := by
  constructor
  · show (if (0:ℚ) = 0 then (if 0 < q then FV.inf else if q < 0 then FV.ninf else FV.nan)
      else FV.fin (q / 0)) = FV.inf
    rw [if_pos rfl, if_pos hq]
  · unfold gillespieE
    rw [loopE_err zeroRates logf r1s r2s MAXITER initSt
      (by show (0:ℚ) < 100; norm_num) (by decide) (by decide) (W_zeroRates _)]
    rfl

theorem c6_unguarded_division_amended_witness :
    fdivQ (.fin 1) 0 = .inf ∧
    gillespieE zeroRates clog (constStream (1/3)) (constStream (2/3)) =
      .error .zeroDivisionError :=
  c6_unguarded_division_amended clog (constStream (1/3)) (constStream (2/3)) 1 (by norm_num)

/-- Claim C7 (counterexample): the draws come from `[0, 1)` including exactly
0, and the code consumes a zero draw without resampling: on the run whose
first `r1` draw is 0, `ln(r1) = -inf`, the waiting time is `+inf` and the
final `t` is the non-finite value `+inf` — refuting "ln(r1) is always finite
and the waiting time is well-defined". -/
theorem c7_counterexample :
    Except.map (fun r => (r.rows, r.it, r.finalT, r.reason))
        (gillespie defaultRates clog (constStream 0) (constStream (1/2))) =
      .ok ([initRow], 1, FV.inf, .horizonReached) ∧ ¬ finiteFV FV.inf := by
  refine ⟨run_zeroDraw clog (constStream 0) (constStream (1/2)) rfl
    (by norm_num [clog]), fun h => h⟩

/-- Claim C7 (amended): the engine draws from `[0, 1)`, which includes
exactly 0, and uses the draw directly — there is no resampling.  A first
draw `r1 = 0` gives `-log(0) = +inf`: the waiting time and then `t` are
`+inf`, the iteration still completes (a reaction fires and its sample is
recorded), and the run exits through the `t < T` check at the next
iteration, without crashing. -/
theorem c7_zero_draw_amended (logf : ℚ → FV) (r1s r2s : ℕ → ℚ)
    (h0 : r1s 0 = 0) (hlog : logf 0 = .ninf) :
    Except.map (fun r => (r.rows, r.it, r.finalT, r.reason))
        (gillespie defaultRates logf r1s r2s) =
      .ok ([initRow], 1, FV.inf, .horizonReached) :=
  run_zeroDraw logf r1s r2s h0 hlog

theorem c7_zero_draw_amended_witness :
    Except.map (fun r => (r.rows, r.it, r.finalT, r.reason))
        (gillespie defaultRates clog (constStream 0) (constStream (1/2))) =
      .ok ([initRow], 1, FV.inf, .horizonReached) :=
  c7_zero_draw_amended clog (constStream 0) (constStream (1/2)) rfl (by norm_num [clog])

/-! ## Claim C2 -/

/-- Claim C2 (counterexample): at the boundary draw `r2 = w1/W` of the
initial state (with default rates), the claim's closed-upper rule selects
channel 1, but the code's sequential `if` block fires channel 2 — an exact
boundary draw selects the higher-indexed channel, not the lower-indexed
one. -/
theorem c2_counterexample :
    applyReactions (w1 defaultRates initCounts) (w2 defaultRates initCounts)
        (w3 defaultRates initCounts) (w4 defaultRates initCounts)
        (w5 defaultRates initCounts) (w6 defaultRates initCounts)
        (W defaultRates initCounts) (14900/17429) initCounts = applyCh 2 initCounts ∧
    selectSpecClosedUpper (w1 defaultRates initCounts) (w2 defaultRates initCounts)
        (w3 defaultRates initCounts) (w4 defaultRates initCounts)
        (w5 defaultRates initCounts) (w6 defaultRates initCounts)
        (W defaultRates initCounts) (14900/17429) = 1 ∧
    applyCh 2 initCounts ≠ applyCh 1 initCounts := by
  refine ⟨?_, ?_, ?_⟩
  · norm_num [applyReactions, fdivQ, qltF, qgeF, qgtF, W, w1, w2, w3, w4, w5, w6, w7,
      defaultRates, initCounts, Npop, applyCh]
  · norm_num [selectSpecClosedUpper, W, w1, w2, w3, w4, w5, w6, w7, defaultRates,
      initCounts, Npop]
  · norm_num [applyCh, initCounts, Npop, Counts.mk.injEq]

/-- Claim C2 (amended): for `W_tot > 0` and non-negative weights, the fired
channel is computed by `selectFirst`: the smallest `j ≤ 6` such that
`r2 < cum_j / W_tot` — boundaries are closed on the lower side, so a draw
exactly on a cumulative boundary selects the higher-indexed channel; channel
7 fires iff `r2 > cum_6 / W_tot`; and at the single draw `r2 = cum_6 / W_tot`
no channel is selected at all. -/
theorem c2_selection_amended (a1 a2 a3 a4 a5 a6 Wv r2 : ℚ) (s : Counts)
    (h2 : 0 ≤ a2) (h3 : 0 ≤ a3) (h4 : 0 ≤ a4) (h5 : 0 ≤ a5) (h6 : 0 ≤ a6) (hW : 0 < Wv) :
    applyReactions a1 a2 a3 a4 a5 a6 Wv r2 s =
      match selectFirst a1 a2 a3 a4 a5 a6 Wv r2 with
      | some j => applyCh j s
      | none => s :=
  applyReactions_char a1 a2 a3 a4 a5 a6 Wv r2 s h2 h3 h4 h5 h6 hW

theorem c2_selection_amended_witness :
    applyReactions (149/10) (3/2) (1/2) (149/1000) (1/5) (2/25) (17429/1000) (1/2)
        initCounts =
      match selectFirst (149/10) (3/2) (1/2) (149/1000) (1/5) (2/25) (17429/1000) (1/2) with
      | some j => applyCh j initCounts
      | none => initCounts :=
  c2_selection_amended (149/10) (3/2) (1/2) (149/1000) (1/5) (2/25) (17429/1000) (1/2)
    initCounts (by norm_num) (by norm_num) (by norm_num) (by norm_num) (by norm_num)
    (by norm_num)

/-! ## Claim C9 -/

/-- Claim C9: the seven branch guards over `r2` are pairwise disjoint (at
most one branch executes per iteration); they do not cover everything: at
the draw `r2` exactly equal to `(w1+...+w6)/W`, no guard holds, the counts
are left unchanged, yet the iteration still advances (`it` increments, `t`
is stepped) and a sample with the unchanged counts is appended at row
`it + 1`. -/
theorem c9_guards_disjoint_and_gap (p : Rates) (logf : ℚ → FV) (r1s r2s : ℕ → ℚ)
    (st : LoopSt)
    (h2 : 0 ≤ w2 p st.c) (h3 : 0 ≤ w3 p st.c) (h4 : 0 ≤ w4 p st.c) (h5 : 0 ≤ w5 p st.c)
    (h6 : 0 ≤ w6 p st.c) (hW : 0 < W p st.c) :
    (∀ i j, guardCh (w1 p st.c) (w2 p st.c) (w3 p st.c) (w4 p st.c) (w5 p st.c) (w6 p st.c)
        (W p st.c) (r2s st.it) i →
      guardCh (w1 p st.c) (w2 p st.c) (w3 p st.c) (w4 p st.c) (w5 p st.c) (w6 p st.c)
        (W p st.c) (r2s st.it) j → i = j) ∧
    (r2s st.it = (w1 p st.c + w2 p st.c + w3 p st.c + w4 p st.c + w5 p st.c + w6 p st.c) /
        W p st.c →
      (∀ j, ¬ guardCh (w1 p st.c) (w2 p st.c) (w3 p st.c) (w4 p st.c) (w5 p st.c)
        (w6 p st.c) (W p st.c) (r2s st.it) j) ∧
      (stepSt p logf r1s r2s st).c = st.c ∧
      (stepSt p logf r1s r2s st).it = st.it + 1 ∧
      (stepSt p logf r1s r2s st).buf (st.it + 1) =
        rowOf (stepSt p logf r1s r2s st).t st.c) := by
  constructor
  · intro i j hi hj
    have ei := guardCh_imp_selectFirst h2 h3 h4 h5 h6 hW hi
    have ej := guardCh_imp_selectFirst h2 h3 h4 h5 h6 hW hj
    exact Option.some.inj (ei.symm.trans ej)
  · intro hr2
    have hgap : selectFirst (w1 p st.c) (w2 p st.c) (w3 p st.c) (w4 p st.c) (w5 p st.c)
        (w6 p st.c) (W p st.c) (r2s st.it) = none := by
      rw [hr2]
      exact selectFirst_gap h2 h3 h4 h5 h6 hW
    have hng : ∀ j, ¬ guardCh (w1 p st.c) (w2 p st.c) (w3 p st.c) (w4 p st.c) (w5 p st.c)
        (w6 p st.c) (W p st.c) (r2s st.it) j := by
      intro j hg
      have hsel := guardCh_imp_selectFirst h2 h3 h4 h5 h6 hW hg
      rw [hsel] at hgap
      cases hgap
    have hcc : (stepSt p logf r1s r2s st).c = st.c := by
      rw [stepSt_c, applyReactions_char _ _ _ _ _ _ _ _ _ h2 h3 h4 h5 h6 hW, hgap]
    refine ⟨hng, hcc, rfl, ?_⟩
    rw [stepSt_buf, hcc]
    simp [writeRow]

theorem c9_guards_disjoint_and_gap_witness :
    (∀ i j, guardCh (w1 defaultRates initSt.c) (w2 defaultRates initSt.c)
        (w3 defaultRates initSt.c) (w4 defaultRates initSt.c) (w5 defaultRates initSt.c)
        (w6 defaultRates initSt.c) (W defaultRates initSt.c) (r2C initSt.it) i →
      guardCh (w1 defaultRates initSt.c) (w2 defaultRates initSt.c)
        (w3 defaultRates initSt.c) (w4 defaultRates initSt.c) (w5 defaultRates initSt.c)
        (w6 defaultRates initSt.c) (W defaultRates initSt.c) (r2C initSt.it) j → i = j) ∧
    (r2C initSt.it = (w1 defaultRates initSt.c + w2 defaultRates initSt.c +
        w3 defaultRates initSt.c + w4 defaultRates initSt.c + w5 defaultRates initSt.c +
        w6 defaultRates initSt.c) / W defaultRates initSt.c →
      (∀ j, ¬ guardCh (w1 defaultRates initSt.c) (w2 defaultRates initSt.c)
        (w3 defaultRates initSt.c) (w4 defaultRates initSt.c) (w5 defaultRates initSt.c)
        (w6 defaultRates initSt.c) (W defaultRates initSt.c) (r2C initSt.it) j) ∧
      (stepSt defaultRates clog r1C r2C initSt).c = initSt.c ∧
      (stepSt defaultRates clog r1C r2C initSt).it = initSt.it + 1 ∧
      (stepSt defaultRates clog r1C r2C initSt).buf (initSt.it + 1) =
        rowOf (stepSt defaultRates clog r1C r2C initSt).t initSt.c) :=
  c9_guards_disjoint_and_gap defaultRates clog r1C r2C initSt
    (by norm_num [w2, defaultRates, initSt, initCounts])
    (by norm_num [w3, defaultRates, initSt, initCounts])
    (by norm_num [w4, defaultRates, initSt, initCounts, Npop])
    (by norm_num [w5, defaultRates, initSt, initCounts])
    (by norm_num [w6, defaultRates, initSt, initCounts])
    (by norm_num [W, w1, w2, w3, w4, w5, w6, w7, defaultRates, initSt, initCounts, Npop])

/-! ## Claim C3 -/

/-- Claim C3 (counterexample): on the concrete run where channel 6 fires at
the first iteration and `I` goes extinct, exactly one reaction fired
(`it = 1`), so the claim predicts a returned trajectory of length
`1 + 1 = 2`; the returned `SIR_data[:it]` has length 1 — the final firing's
sample, although written into the buffer, is silently dropped by the
slice. -/
theorem c3_counterexample :
    Except.map (fun r => (r.rows.length, r.it))
        (gillespie defaultRates clog (constStream (1/2)) (constStream (17300/17429)))
      = .ok (1, 1) ∧ (1 : ℕ) ≠ 1 + 1 := by
  refine ⟨?_, by decide⟩
  rw [runA_eq]
  rfl

/-- Claim C3 (amended): the trajectory handed to the consumer is the slice
`SIR_data[:it]`: its length is exactly `it` (the number of loop iterations
= firings), not `1 + it`; it consists of rows `0 .. it-1` of the buffer
(the initial sample and the first `it - 1` firing samples), so the final
iteration's sample — written at row `it` — is dropped. -/
theorem c3_slice_amended (p : Rates) (logf : ℚ → FV) (r1s r2s : ℕ → ℚ) :
    Except.map (fun r => r.rows.length) (gillespie p logf r1s r2s) =
      Except.map (fun x => x.1.it) (loop p logf r1s r2s (MAXITER + 1) initSt) ∧
    Except.map (fun r => r.rows) (gillespie p logf r1s r2s) =
      Except.map (fun x => (List.range x.1.it).map x.1.buf)
        (loop p logf r1s r2s (MAXITER + 1) initSt) := by
  unfold gillespie
  rcases loop p logf r1s r2s (MAXITER + 1) initSt with e | ⟨st, rsn⟩
  · exact ⟨rfl, rfl⟩
  · refine ⟨?_, ?_⟩ <;> simp [Except.map, mkResult]

/-! ## Run-level invariants (claims C4, C5, C8, C10) -/

lemma gillespie_ok_elim (p : Rates) (logf : ℚ → FV) (r1s r2s : ℕ → ℚ) {res : RunResult}
    (hok : gillespie p logf r1s r2s = .ok res) :
    ∃ st rsn, loop p logf r1s r2s (MAXITER + 1) initSt = .ok (st, rsn) ∧
      res = mkResult (st, rsn) := by
  unfold gillespie at hok
  rcases hl : loop p logf r1s r2s (MAXITER + 1) initSt with e | ⟨st, rsn⟩
  · rw [hl, except_map_error] at hok
    cases hok
  · rw [hl, except_map_ok] at hok
    exact ⟨st, rsn, rfl, (Except.ok.inj hok).symm⟩

/-- Claim C4: for every run that returns normally, every recorded sample of
the returned trajectory and the final counts sum to `N = 200` — each
reaction branch changes one compartment by `-1` and one by `+1` (and the
uncovered boundary draw changes nothing), so the population sum is
preserved unconditionally. -/
theorem c4_population_conservation (p : Rates) (logf : ℚ → FV) (r1s r2s : ℕ → ℚ)
    (res : RunResult) (hok : gillespie p logf r1s r2s = .ok res) :
    (∀ row ∈ res.rows, rowSum row = Npop) ∧ countsSum res.finalCounts = Npop := by
  obtain ⟨st, rsn, hl, hres⟩ := gillespie_ok_elim p logf r1s r2s hok
  have hstep : ∀ s : LoopSt,
      (countsSum s.c = Npop ∧ ∀ j, j ≤ s.it → rowSum (s.buf j) = Npop) →
      fltQ s.t Tmax → s.it < MAXITER → s.c.n_I ≠ 0 →
      (countsSum (stepSt p logf r1s r2s s).c = Npop ∧
        ∀ j, j ≤ (stepSt p logf r1s r2s s).it →
          rowSum ((stepSt p logf r1s r2s s).buf j) = Npop) := by
    intro s hs _ _ _
    have hc' : countsSum (stepSt p logf r1s r2s s).c = Npop := by
      rw [stepSt_c, applyReactions_sum]
      exact hs.1
    refine ⟨hc', ?_⟩
    intro j hj
    rw [stepSt_it] at hj
    rcases Nat.lt_or_ge j (s.it + 1) with hlt | hge
    · rw [stepSt_buf_ne p logf r1s r2s s (by omega)]
      exact hs.2 j (by omega)
    · obtain rfl : j = s.it + 1 := by omega
      rw [stepSt_buf]
      have hw : writeRow s.buf (s.it + 1)
          (rowOf (stepSt p logf r1s r2s s).t (stepSt p logf r1s r2s s).c) (s.it + 1) =
          rowOf (stepSt p logf r1s r2s s).t (stepSt p logf r1s r2s s).c := by
        simp [writeRow]
      rw [hw, rowSum_rowOf]
      exact hc'
  have hinit : countsSum initSt.c = Npop ∧ ∀ j, j ≤ initSt.it →
      rowSum (initSt.buf j) = Npop := by
    constructor
    · norm_num [countsSum, initSt, initCounts, Npop]
    · intro j hj
      obtain rfl := Nat.le_zero.mp hj
      norm_num [initSt, writeRow, initRow, rowOf, rowSum, initCounts, Npop]
  have hP := loop_inv p logf r1s r2s
    (fun s => countsSum s.c = Npop ∧ ∀ j, j ≤ s.it → rowSum (s.buf j) = Npop)
    hstep (MAXITER + 1) initSt st rsn hinit hl
  subst hres
  constructor
  · intro row hrow
    simp only [mkResult, List.mem_map, List.mem_range] at hrow
    obtain ⟨j, hj, rfl⟩ := hrow
    exact hP.2 j (le_of_lt hj)
  · exact hP.1

theorem c4_population_conservation_witness :
    (∀ row ∈ resA.rows, rowSum row = Npop) ∧ countsSum resA.finalCounts = Npop :=
  c4_population_conservation defaultRates clog (constStream (1/2))
    (constStream (17300/17429)) resA runA_eq

/-- Claim C5: for every run with non-negative rate constants and `r2` draws
in `[0, 1)` that returns normally, every species count in every returned
sample and in the final counts is non-negative: a channel whose source
species is zero has zero weight, so its `r2` interval is empty and it can
never fire. -/
theorem c5_nonnegativity (p : Rates) (logf : ℚ → FV) (r1s r2s : ℕ → ℚ)
    (res : RunResult) (hp : RatesNN p) (hr2 : ∀ i, 0 ≤ r2s i ∧ r2s i < 1)
    (hok : gillespie p logf r1s r2s = .ok res) :
    (∀ row ∈ res.rows, RowNN row) ∧ CountsNN res.finalCounts := by
  obtain ⟨st, rsn, hl, hres⟩ := gillespie_ok_elim p logf r1s r2s hok
  have hstep : ∀ s : LoopSt,
      (CountsNN s.c ∧ ∀ j, j ≤ s.it → RowNN (s.buf j)) →
      fltQ s.t Tmax → s.it < MAXITER → s.c.n_I ≠ 0 →
      (CountsNN (stepSt p logf r1s r2s s).c ∧
        ∀ j, j ≤ (stepSt p logf r1s r2s s).it →
          RowNN ((stepSt p logf r1s r2s s).buf j)) := by
    intro s hs _ _ _
    have hc' : CountsNN (stepSt p logf r1s r2s s).c := by
      rw [stepSt_c]
      exact applyReactions_nonneg p s.c (r2s s.it) hp hs.1 (hr2 s.it).1 (hr2 s.it).2
    refine ⟨hc', ?_⟩
    intro j hj
    rw [stepSt_it] at hj
    rcases Nat.lt_or_ge j (s.it + 1) with hlt | hge
    · rw [stepSt_buf_ne p logf r1s r2s s (by omega)]
      exact hs.2 j (by omega)
    · obtain rfl : j = s.it + 1 := by omega
      rw [stepSt_buf]
      have hw : writeRow s.buf (s.it + 1)
          (rowOf (stepSt p logf r1s r2s s).t (stepSt p logf r1s r2s s).c) (s.it + 1) =
          rowOf (stepSt p logf r1s r2s s).t (stepSt p logf r1s r2s s).c := by
        simp [writeRow]
      rw [hw]
      exact rowNN_rowOf hc'
  have hinit : CountsNN initSt.c ∧ ∀ j, j ≤ initSt.it → RowNN (initSt.buf j) := by
    constructor
    · norm_num [CountsNN, initSt, initCounts, Npop]
    · intro j hj
      obtain rfl := Nat.le_zero.mp hj
      norm_num [initSt, writeRow, initRow, rowOf, RowNN, initCounts, Npop]
  have hP := loop_inv p logf r1s r2s
    (fun s => CountsNN s.c ∧ ∀ j, j ≤ s.it → RowNN (s.buf j))
    hstep (MAXITER + 1) initSt st rsn hinit hl
  subst hres
  constructor
  · intro row hrow
    simp only [mkResult, List.mem_map, List.mem_range] at hrow
    obtain ⟨j, hj, rfl⟩ := hrow
    exact hP.2 j (le_of_lt hj)
  · exact hP.1

theorem c5_nonnegativity_witness :
    (∀ row ∈ resA.rows, RowNN row) ∧ CountsNN resA.finalCounts :=
  c5_nonnegativity defaultRates clog (constStream (1/2)) (constStream (17300/17429)) resA
    (by norm_num [RatesNN, defaultRates])
    (fun i => ⟨by norm_num [constStream], by norm_num [constStream]⟩)
    runA_eq

lemma chain_mono (f : ℕ → Row) (n : ℕ) (h : ∀ j, j < n → adjSD (f j) (f (j + 1))) :
    ∀ i j, i ≤ j → j ≤ n → (f i).n_S ≤ (f j).n_S ∧ (f i).n_D ≤ (f j).n_D := by
  intro i j
  induction j with
  | zero =>
    intro hij _
    obtain rfl := Nat.le_zero.mp hij
    exact ⟨le_refl _, le_refl _⟩
  | succ m ih =>
    intro hij hjn
    rcases Nat.lt_or_ge i (m + 1) with hlt | hge
    · obtain ⟨hS, hD⟩ := ih (by omega) (by omega)
      obtain ⟨h2S, h2D⟩ := h m (by omega)
      constructor
      · rcases h2S with e | e <;> omega
      · rcases h2D with e | e <;> omega
    · obtain rfl : i = m + 1 := by omega
      exact ⟨le_refl _, le_refl _⟩

lemma range_map_getElem {f : ℕ → Row} {n i : ℕ} {ri : Row}
    (h : ((List.range n).map f)[i]? = some ri) : i < n ∧ ri = f i := by
  rcases Nat.lt_or_ge i n with hlt | hge
  · rw [List.getElem?_map, List.getElem?_range hlt] at h
    exact ⟨hlt, (Option.some.inj h).symm⟩
  · rw [List.getElem?_map, List.getElem?_eq_none (by simpa using hge)] at h
    cases h

/-- Claim C8: across every returned trajectory the `S` and `D` counts are
non-decreasing, and each consecutive change is exactly `+0` or `+1` (only
the branches of channels 6 and 7 ever touch `D` and `S`, each by `+1`). -/
theorem c8_monotone_sinks (p : Rates) (logf : ℚ → FV) (r1s r2s : ℕ → ℚ)
    (res : RunResult) (hok : gillespie p logf r1s r2s = .ok res) :
    (∀ (i j : ℕ) (ri rj : Row), i ≤ j → res.rows[i]? = some ri → res.rows[j]? = some rj →
      ri.n_S ≤ rj.n_S ∧ ri.n_D ≤ rj.n_D) ∧
    (∀ (i : ℕ) (ri ri' : Row), res.rows[i]? = some ri → res.rows[i + 1]? = some ri' →
      adjSD ri ri') := by
  obtain ⟨st, rsn, hl, hres⟩ := gillespie_ok_elim p logf r1s r2s hok
  have hstep : ∀ s : LoopSt,
      ((∀ j, j < s.it → adjSD (s.buf j) (s.buf (j + 1))) ∧
        (s.buf s.it).n_S = s.c.n_S ∧ (s.buf s.it).n_D = s.c.n_D) →
      fltQ s.t Tmax → s.it < MAXITER → s.c.n_I ≠ 0 →
      ((∀ j, j < (stepSt p logf r1s r2s s).it →
          adjSD ((stepSt p logf r1s r2s s).buf j) ((stepSt p logf r1s r2s s).buf (j + 1))) ∧
        ((stepSt p logf r1s r2s s).buf (stepSt p logf r1s r2s s).it).n_S =
          (stepSt p logf r1s r2s s).c.n_S ∧
        ((stepSt p logf r1s r2s s).buf (stepSt p logf r1s r2s s).it).n_D =
          (stepSt p logf r1s r2s s).c.n_D) := by
    intro s hs _ _ _
    have hnew : (stepSt p logf r1s r2s s).buf (s.it + 1) =
        rowOf (stepSt p logf r1s r2s s).t (stepSt p logf r1s r2s s).c := by
      rw [stepSt_buf]
      simp [writeRow]
    refine ⟨?_, ?_, ?_⟩
    · intro j hj
      rw [stepSt_it] at hj
      rcases Nat.lt_or_ge j s.it with hlt | hge
      · rw [stepSt_buf_ne p logf r1s r2s s (by omega),
          stepSt_buf_ne p logf r1s r2s s (by omega)]
        exact hs.1 j hlt
      · obtain rfl : j = s.it := by omega
        rw [stepSt_buf_ne p logf r1s r2s s (by omega), hnew]
        have hS := applyReactions_S (w1 p s.c) (w2 p s.c) (w3 p s.c) (w4 p s.c) (w5 p s.c)
          (w6 p s.c) (W p s.c) (r2s s.it) s.c
        have hD := applyReactions_D (w1 p s.c) (w2 p s.c) (w3 p s.c) (w4 p s.c) (w5 p s.c)
          (w6 p s.c) (W p s.c) (r2s s.it) s.c
        constructor
        · show (stepSt p logf r1s r2s s).c.n_S = (s.buf s.it).n_S ∨
            (stepSt p logf r1s r2s s).c.n_S = (s.buf s.it).n_S + 1
          rw [hs.2.1, stepSt_c]
          exact hS
        · show (stepSt p logf r1s r2s s).c.n_D = (s.buf s.it).n_D ∨
            (stepSt p logf r1s r2s s).c.n_D = (s.buf s.it).n_D + 1
          rw [hs.2.2, stepSt_c]
          exact hD
    · rw [stepSt_it, hnew]
      rfl
    · rw [stepSt_it, hnew]
      rfl
  have hinit : (∀ j, j < initSt.it → adjSD (initSt.buf j) (initSt.buf (j + 1))) ∧
      (initSt.buf initSt.it).n_S = initSt.c.n_S ∧
      (initSt.buf initSt.it).n_D = initSt.c.n_D := by
    refine ⟨?_, rfl, rfl⟩
    intro j hj
    cases hj
  have hP := loop_inv p logf r1s r2s
    (fun s => (∀ j, j < s.it → adjSD (s.buf j) (s.buf (j + 1))) ∧
      (s.buf s.it).n_S = s.c.n_S ∧ (s.buf s.it).n_D = s.c.n_D)
    hstep (MAXITER + 1) initSt st rsn hinit hl
  subst hres
  constructor
  · intro i j ri rj hij hi hj
    simp only [mkResult] at hi hj
    obtain ⟨hjlt, rfl⟩ := range_map_getElem hj
    obtain ⟨hilt, rfl⟩ := range_map_getElem hi
    exact chain_mono st.buf st.it hP.1 i j hij (le_of_lt hjlt)
  · intro i ri ri' hi hi'
    simp only [mkResult] at hi hi'
    obtain ⟨hilt, rfl⟩ := range_map_getElem hi
    obtain ⟨hilt', rfl⟩ := range_map_getElem hi'
    exact hP.1 i (by omega)

theorem c8_monotone_sinks_witness :
    (∀ (i j : ℕ) (ri rj : Row), i ≤ j → resA.rows[i]? = some ri →
      resA.rows[j]? = some rj → ri.n_S ≤ rj.n_S ∧ ri.n_D ≤ rj.n_D) ∧
    (∀ (i : ℕ) (ri ri' : Row), resA.rows[i]? = some ri → resA.rows[i + 1]? = some ri' →
      adjSD ri ri') :=
  c8_monotone_sinks defaultRates clog (constStream (1/2)) (constStream (17300/17429)) resA
    runA_eq

lemma range_map_head (f : ℕ → Row) (n : ℕ) (hn : 1 ≤ n) :
    ((List.range n).map f).head? = some (f 0) := by
  cases n with
  | zero => omega
  | succ m => simp [List.range_succ_eq_map]

/-- Claim C10: the only caller-supplied inputs of `gillespie` are the seven
rate constants (and the injected random source); the population size, time
horizon, iteration cap and initial counts are fixed internal constants, so
every run — whatever the rates and draws — starts from the same initial
sample `(t = 0, W = 149, I = 1, R = 50, S = 0, D = 0)`, which is the first
entry of every returned trajectory. -/
theorem c10_fixed_initial_state (p : Rates) (logf : ℚ → FV) (r1s r2s : ℕ → ℚ)
    (res : RunResult) (hok : gillespie p logf r1s r2s = .ok res) :
    res.rows.head? = some initRow ∧ 1 ≤ res.it ∧ initRow = rowOf (.fin 0) initCounts ∧
    initCounts = { n_W := 149, n_I := 1, n_R := 50, n_S := 0, n_D := 0 } ∧
    Npop = 200 ∧ Tmax = 100 ∧ MAXITER = 10000 := by
  obtain ⟨st, rsn, hl, hres⟩ := gillespie_ok_elim p logf r1s r2s hok
  rw [loop_step p logf r1s r2s MAXITER initSt (by show (0:ℚ) < 100; norm_num)
    (by decide) (by decide) (by rw [stepSt_it]; decide)] at hl
  have hinit1 : (stepSt p logf r1s r2s initSt).buf 0 = initRow ∧
      1 ≤ (stepSt p logf r1s r2s initSt).it := by
    constructor
    · rw [stepSt_buf_ne p logf r1s r2s initSt (by decide)]
      rfl
    · rw [stepSt_it]
      omega
  have hstep : ∀ s : LoopSt, (s.buf 0 = initRow ∧ 1 ≤ s.it) →
      fltQ s.t Tmax → s.it < MAXITER → s.c.n_I ≠ 0 →
      ((stepSt p logf r1s r2s s).buf 0 = initRow ∧ 1 ≤ (stepSt p logf r1s r2s s).it) := by
    intro s hs _ _ _
    constructor
    · rw [stepSt_buf_ne p logf r1s r2s s (by omega)]
      exact hs.1
    · rw [stepSt_it]
      omega
  have hP := loop_inv p logf r1s r2s (fun s => s.buf 0 = initRow ∧ 1 ≤ s.it)
    hstep MAXITER (stepSt p logf r1s r2s initSt) st rsn hinit1 hl
  subst hres
  refine ⟨?_, hP.2, rfl, by norm_num [initCounts, Npop], rfl, rfl, rfl⟩
  show ((List.range st.it).map st.buf).head? = some initRow
  rw [range_map_head st.buf st.it hP.2, hP.1]

theorem c10_fixed_initial_state_witness :
    resA.rows.head? = some initRow ∧ 1 ≤ resA.it ∧ initRow = rowOf (.fin 0) initCounts ∧
    initCounts = { n_W := 149, n_I := 1, n_R := 50, n_S := 0, n_D := 0 } ∧
    Npop = 200 ∧ Tmax = 100 ∧ MAXITER = 10000 :=
  c10_fixed_initial_state defaultRates clog (constStream (1/2))
    (constStream (17300/17429)) resA runA_eq

end Gillespie
